import Mathlib

/-!
Verification of the fastBayesReg posterior-sampling engine
(`src/fastBayesReg.cpp`) against its natural-language specification.

The C++ code is shallowly embedded over the real numbers: armadillo
vectors become `List ℝ`, matrices become row-lists `List (List ℝ)`,
floating-point arithmetic is modelled by exact real arithmetic, and
every random variate produced by the generator (standard normal, gamma,
uniform, Polya-Gamma) is supplied by an explicit oracle stream
`ℕ → ℝ` consumed in the drawing order of the source.  External
collaborators (LAPACK economy SVD, the `pgdraw` R package) are passed
in as function parameters, mirroring their interface in the spec.
-/

namespace FastBayesReg

noncomputable section

open Real

/-! ## Basic vector and matrix operations on lists (armadillo semantics) -/

/-- Dot product of two real vectors (`arma::dot`). -/
def dotL (u v : List ℝ) : ℝ := (List.zipWith (· * ·) u v).sum

/-- Elementwise sum (`+` on `arma::vec`). -/
def vAdd (u v : List ℝ) : List ℝ := List.zipWith (· + ·) u v

/-- Elementwise difference (`-` on `arma::vec`). -/
def vSub (u v : List ℝ) : List ℝ := List.zipWith (· - ·) u v

/-- Elementwise (Schur) product (`%` on `arma::vec`). -/
def vHad (u v : List ℝ) : List ℝ := List.zipWith (· * ·) u v

/-- Elementwise quotient (`/` on `arma::vec`). -/
def vDiv (u v : List ℝ) : List ℝ := List.zipWith (· / ·) u v

/-- Scalar multiple of a vector. -/
def vScale (c : ℝ) (v : List ℝ) : List ℝ := v.map (fun t => c * t)

/-- Sum of squared entries, `arma::accu(x % x)`. -/
def sumSq (v : List ℝ) : ℝ := (v.map (fun t => t * t)).sum

/-- Matrix–vector product; the matrix is stored as a list of rows. -/
def matVec (M : List (List ℝ)) (v : List ℝ) : List ℝ := M.map (fun r => dotL r v)

/-- Transpose of a row-major matrix. -/
def transposeM (M : List (List ℝ)) : List (List ℝ) :=
  (List.range (M.headD []).length).map (fun j => M.map (fun r => r.getD j 0))

/-- Matrix–matrix product (`A * B` on `arma::mat`). -/
def matMul (A B : List (List ℝ)) : List (List ℝ) :=
  A.map (fun r => (transposeM B).map (fun c => dotL r c))

/-- Add a vector to the main diagonal of a square matrix
(`M.diag() += v` in armadillo). -/
def addDiag (M : List (List ℝ)) (v : List ℝ) : List (List ℝ) :=
  List.zipWith
    (fun (r : List ℝ) (i : ℕ) =>
      r.mapIdx (fun j a => if j = i then a + v.getD i 0 else a))
    M (List.range M.length)

/-- A block of `k` consecutive values of the oracle stream `g` starting
at position `c`; models drawing a `k`-vector of random variates. -/
def streamVec (g : ℕ → ℝ) (c k : ℕ) : List ℝ :=
  (List.range k).map (fun j => g (c + j))

/-- Mean of a list of reals (`arma::mean` on a vector). -/
noncomputable def meanR (l : List ℝ) : ℝ := l.sum / l.length

/-- Row-wise mean of a matrix handed as a list of `p`-vector columns
(`arma::mean(M, 1)`). -/
noncomputable def colwiseMean (cols : List (List ℝ)) (p : ℕ) : List ℝ :=
  (List.range p).map (fun j => meanR (cols.map (fun c => c.getD j 0)))

/-! ## Numerically-stable log transforms (source lines 13–58) -/

/-- The constant `LOG2` defined by `#define LOG2 0.693147180559945`
in the source: a decimal literal approximating `log 2`. -/
noncomputable def LOG2 : ℝ := 0.693147180559945

/-- Embedding of `log1mexpm` (source lines 25–33): computes
`log(1 - exp(-x))` entrywise, branching at the `LOG2` constant.
`expm1 s` is modelled as `exp s - 1` and `log1p s` as `log (1 + s)`. -/
noncomputable def log1mexpm (x : List ℝ) : List ℝ :=
  x.map (fun t =>
    if t ≤ LOG2 then Real.log (0 - (Real.exp (0 - t) - 1))
    else Real.log (1 + (0 - Real.exp (0 - t))))

/-- Embedding of `log1pexp` (source lines 46–58): computes
`log(1 + exp x)` entrywise via four regimes partitioned at
`-37`, `18` and `33.3`. -/
noncomputable def log1pexp (x : List ℝ) : List ℝ :=
  x.map (fun t =>
    if t ≤ -37 then Real.exp t
    else if t ≤ 18 then Real.log (1 + Real.exp t)
    else if t ≤ 33.3 then t + Real.exp (0 - t)
    else t)

/-- Both branch formulas of `log1mexpm` denote `log (1 - exp (-t))`
over the reals, whatever threshold `c` separates them. -/
lemma log1mexpm_branch_eq (c t : ℝ) :
    (if t ≤ c then Real.log (0 - (Real.exp (0 - t) - 1))
     else Real.log (1 + (0 - Real.exp (0 - t)))) = Real.log (1 - Real.exp (-t)) := by
  split
  · congr 1; ring_nf
  · congr 1; ring_nf

/-- C6: on nonnegative inputs, `log1mexpm` returns a vector of the same
length whose `i`-th entry equals `log (-expm1 (-xᵢ))` for `xᵢ ≤ ln 2`
and `log1p (-exp (-xᵢ))` for `xᵢ > ln 2`. -/
theorem log1mexpm_spec (x : List ℝ) (hx : ∀ t ∈ x, 0 ≤ t) :
    (log1mexpm x).length = x.length ∧
    ∀ i, i < x.length →
      (log1mexpm x).getD i 0 =
        if x.getD i 0 ≤ Real.log 2 then Real.log (0 - (Real.exp (0 - x.getD i 0) - 1))
        else Real.log (1 + (0 - Real.exp (0 - x.getD i 0))) := by
  refine ⟨by simp [log1mexpm], ?_⟩
  intro i hi
  have hlen : i < (log1mexpm x).length := by simpa [log1mexpm] using hi
  rw [List.getD_eq_getElem _ _ hlen, List.getD_eq_getElem _ _ hi]
  simp only [log1mexpm, List.getElem_map]
  rw [log1mexpm_branch_eq, log1mexpm_branch_eq]

/-- Witness for C6 at the concrete input `x = [1]`. -/
theorem log1mexpm_spec_witness :
    (log1mexpm [1]).length = [(1 : ℝ)].length ∧
    ∀ i, i < [(1 : ℝ)].length →
      (log1mexpm [1]).getD i 0 =
        if [(1 : ℝ)].getD i 0 ≤ Real.log 2 then
          Real.log (0 - (Real.exp (0 - [(1 : ℝ)].getD i 0) - 1))
        else Real.log (1 + (0 - Real.exp (0 - [(1 : ℝ)].getD i 0))) :=
  log1mexpm_spec [1] (by simp)

/-- C7: `log1pexp` maps each entry through the four-regime formula:
`exp x` for `x ≤ -37`, `log1p (exp x)` for `-37 < x ≤ 18`,
`x + exp (-x)` for `18 < x ≤ 33.3`, and exactly `x` for `x > 33.3`,
hence in particular the result equals `x` for every `x > 40`. -/
theorem log1pexp_spec (x : List ℝ) :
    (log1pexp x).length = x.length ∧
    ∀ i, i < x.length →
      ((x.getD i 0 ≤ -37 → (log1pexp x).getD i 0 = Real.exp (x.getD i 0)) ∧
       (-37 < x.getD i 0 → x.getD i 0 ≤ 18 →
          (log1pexp x).getD i 0 = Real.log (1 + Real.exp (x.getD i 0))) ∧
       (18 < x.getD i 0 → x.getD i 0 ≤ 33.3 →
          (log1pexp x).getD i 0 = x.getD i 0 + Real.exp (-(x.getD i 0))) ∧
       (33.3 < x.getD i 0 → (log1pexp x).getD i 0 = x.getD i 0) ∧
       (40 < x.getD i 0 → (log1pexp x).getD i 0 = x.getD i 0)) := by
  refine ⟨by simp [log1pexp], ?_⟩
  intro i hi
  have hlen : i < (log1pexp x).length := by simpa [log1pexp] using hi
  rw [List.getD_eq_getElem _ _ hlen, List.getD_eq_getElem _ _ hi]
  simp only [log1pexp, List.getElem_map]
  set t := x[i] with ht
  refine ⟨?_, ?_, ?_, ?_, ?_⟩
  · intro h; rw [if_pos h]
  · intro h1 h2
    rw [if_neg (by linarith), if_pos h2]
  · intro h1 h2
    rw [if_neg (by linarith), if_neg (by linarith), if_pos h2]
    ring_nf
  · intro h
    rw [if_neg (by linarith), if_neg (by linarith), if_neg (by linarith)]
  · intro h
    have h333 : (33.3 : ℝ) < t := by
      have : (33.3 : ℝ) < 40 := by norm_num
      linarith
    rw [if_neg (by linarith), if_neg (by linarith), if_neg (by linarith)]

/-- Witness for C7 at the concrete input `x = [-37]`, exercising the
first regime. -/
theorem log1pexp_spec_witness :
    (log1pexp [-37]).getD 0 0 = Real.exp ([(-37 : ℝ)].getD 0 0) :=
  ((log1pexp_spec [-37]).2 0 (by simp)).1 (le_refl _)

/-! ## The MCMC driver loop

Both sampling loops of every fitting entry point have the same shape:
`burnin` kernel invocations with nothing stored, then `mcmc_sample`
outer iterations each performing `thinning` kernel invocations and
storing the state reached.  `runChain` captures exactly that shape. -/

/-- The sampling phase: `m` outer iterations, each applying the kernel
`f` `thin` times and then appending the current state to the stored
draw sequence.  Returns the final state and the stored draws in
iteration order. -/
def sampleSteps {σ : Type} (f : σ → σ) (thin : ℕ) : ℕ → σ → σ × List σ
  | 0, s => (s, [])
  | m + 1, s =>
    let s1 := f^[thin] s
    let r := sampleSteps f thin m s1
    (r.1, s1 :: r.2)

/-- The full driver: `burnin` un-stored kernel invocations followed by
the sampling phase. -/
def runChain {σ : Type} (f : σ → σ) (burnin mcmc thin : ℕ) (s : σ) : σ × List σ :=
  sampleSteps f thin mcmc (f^[burnin] s)

lemma sampleSteps_length {σ : Type} (f : σ → σ) (thin m : ℕ) (s : σ) :
    (sampleSteps f thin m s).2.length = m := by
  induction m generalizing s with
  | zero => rfl
  | succ k ih => simp [sampleSteps, ih]

lemma sampleSteps_fst {σ : Type} (f : σ → σ) (thin m : ℕ) (s : σ) :
    (sampleSteps f thin m s).1 = f^[m * thin] s := by
  induction m generalizing s with
  | zero => simp [sampleSteps]
  | succ k ih =>
    rw [show (k + 1) * thin = k * thin + thin by ring, Function.iterate_add_apply]
    simpa [sampleSteps] using ih (f^[thin] s)

lemma sampleSteps_getD {σ : Type} (f : σ → σ) (thin m : ℕ) (s : σ)
    (i : ℕ) (hi : i < m) (dflt : σ) :
    (sampleSteps f thin m s).2.getD i dflt = f^[(i + 1) * thin] s := by
  induction m generalizing s i with
  | zero => exact absurd hi (Nat.not_lt_zero i)
  | succ k ih =>
    cases i with
    | zero => simp [sampleSteps]
    | succ j =>
      have hj : j < k := Nat.lt_of_succ_lt_succ hi
      have := ih (f^[thin] s) j hj
      rw [show (j + 1 + 1) * thin = (j + 1) * thin + thin by ring,
        Function.iterate_add_apply]
      simpa [sampleSteps] using this

lemma runChain_length {σ : Type} (f : σ → σ) (burnin mcmc thin : ℕ) (s : σ) :
    (runChain f burnin mcmc thin s).2.length = mcmc :=
  sampleSteps_length f thin mcmc _

lemma runChain_getD {σ : Type} (f : σ → σ) (burnin mcmc thin : ℕ) (s : σ)
    (i : ℕ) (hi : i < mcmc) (dflt : σ) :
    (runChain f burnin mcmc thin s).2.getD i dflt = f^[burnin + (i + 1) * thin] s := by
  rw [runChain, sampleSteps_getD f thin mcmc _ i hi dflt,
    Nat.add_comm burnin ((i + 1) * thin), Function.iterate_add_apply]

/-- Pairing a kernel with an invocation counter, for counting how many
times the driver invokes it. -/
def countingStep {σ : Type} (f : σ → σ) : σ × ℕ → σ × ℕ :=
  fun q => (f q.1, q.2 + 1)

lemma countingStep_iterate {σ : Type} (f : σ → σ) (k : ℕ) (s : σ) (c : ℕ) :
    (countingStep f)^[k] (s, c) = (f^[k] s, c + k) := by
  induction k generalizing s c with
  | zero => rfl
  | succ j ih =>
    rw [Function.iterate_succ_apply, Function.iterate_succ_apply,
      show countingStep f (s, c) = (f s, c + 1) from rfl, ih]
    exact congrArg _ (by omega)

lemma runChain_count {σ : Type} (f : σ → σ) (burnin mcmc thin : ℕ) (s : σ) :
    ((runChain (countingStep f) burnin mcmc thin (s, 0)).1).2 =
      burnin + mcmc * thin := by
  rw [runChain, sampleSteps_fst, ← Function.iterate_add_apply,
    countingStep_iterate]
  omega

/-! ## Normal-prior Gaussian regression kernels (source lines 164–205)

The state mutated in place by the C++ kernels, plus the positions of
the two oracle streams (`rngN` indexes the standard-normal stream,
`rngG` the gamma stream), standing in for the global generator.  Each
kernel also returns the list of `(shape, scale)` parameter pairs it
passes to `arma::randg`, in drawing order, so that theorems can speak
about the gamma distributions sampled from. -/

structure LmState where
  betacoef : List ℝ
  sigma2_eps : ℝ
  tau2 : ℝ
  b_tau : ℝ
  mu : List ℝ
  rngN : ℕ
  rngG : ℕ

/-- The data fixed for one `fast_normal_lm` run: the SVD pieces, the
raw data, and the hyperparameters. -/
structure LmData where
  ys : List ℝ
  V : List (List ℝ)
  d : List ℝ
  d2 : List ℝ
  y : List ℝ
  X : List (List ℝ)
  A2 : ℝ
  a_sigma : ℝ
  b_sigma : ℝ
  p : ℕ
  n : ℕ

/-- Embedding of `one_step_update_big_p` (source lines 164–183), the
predictor-major (`p ≥ n`) kernel of `fast_normal_lm`. -/
def one_step_update_big_p (dt : LmData) (gn gg : ℕ → ℝ) (s : LmState) :
    LmState × List (ℝ × ℝ) :=
  let alpha_1 := vScale (Real.sqrt (s.sigma2_eps * s.tau2)) (streamVec gn s.rngN dt.p)
  let alpha_2 := vScale (Real.sqrt s.sigma2_eps) (streamVec gn (s.rngN + dt.p) dt.n)
  let beta_s := vDiv (vHad (vSub (vSub dt.ys (vHad dt.d (matVec (transposeM dt.V) alpha_1))) alpha_2) dt.d)
    (dt.d2.map (fun t => 1 + s.tau2 * t))
  let betacoef := vAdd alpha_1 (vScale s.tau2 (matVec dt.V beta_s))
  let mu := matVec dt.X betacoef
  let eps := vSub dt.y mu
  let sum_eps2 := sumSq eps
  let sum_beta2 := sumSq betacoef
  let call1 : ℝ × ℝ := ((1 + (dt.p : ℝ)) / 2, 1 / (s.b_tau + 0.5 * sum_beta2 / s.sigma2_eps))
  let inv_tau2 := gg s.rngG
  let call2 : ℝ × ℝ := (1, 1 / (1 / dt.A2 + inv_tau2))
  let b_tau := gg (s.rngG + 1)
  let tau2 := 1 / inv_tau2
  let call3 : ℝ × ℝ := (dt.a_sigma + ((dt.n : ℝ) + (dt.p : ℝ)) / 2,
    1 / (dt.b_sigma + 0.5 * sum_beta2 * inv_tau2 + 0.5 * sum_eps2))
  let inv_sigma2_eps := gg (s.rngG + 2)
  let sigma2_eps := 1 / inv_sigma2_eps
  ({ betacoef := betacoef, sigma2_eps := sigma2_eps, tau2 := tau2, b_tau := b_tau,
     mu := mu, rngN := s.rngN + dt.p + dt.n, rngG := s.rngG + 3 },
   [call1, call2, call3])

/-- The coefficient draw of `one_step_update_big_n` expressed in the
SVD basis (`beta_s` in the source, line 194): the precision-weighted
mean `d∘ys/(d²+1/τ²)` plus the scaled normal draw `alpha_1`. -/
def bigN_beta_s (dt : LmData) (gn : ℕ → ℝ) (s : LmState) : List ℝ :=
  let inv_tau2 := 1 / s.tau2
  vAdd (vDiv (vHad dt.d dt.ys) (dt.d2.map (fun t => t + inv_tau2)))
    (vHad (streamVec gn s.rngN dt.p)
      (dt.d2.map (fun t => Real.sqrt (s.sigma2_eps / (t + inv_tau2)))))

/-- Embedding of `one_step_update_big_n` (source lines 186–205), the
observation-major (`p < n`) kernel of `fast_normal_lm`. -/
def one_step_update_big_n (dt : LmData) (gn gg : ℕ → ℝ) (s : LmState) :
    LmState × List (ℝ × ℝ) :=
  let beta_s := bigN_beta_s dt gn s
  let betacoef := matVec dt.V beta_s
  let mu := vHad dt.d beta_s
  let eps := vSub dt.ys mu
  let sum_eps2 := sumSq eps
  let sum_beta2 := sumSq beta_s
  let call1 : ℝ × ℝ := ((1 + (dt.p : ℝ)) / 2, 1 / (s.b_tau + 0.5 * sum_beta2 / s.sigma2_eps))
  let inv_tau2 := gg s.rngG
  let call2 : ℝ × ℝ := (1, 1 / (1 / dt.A2 + inv_tau2))
  let b_tau := gg (s.rngG + 1)
  let tau2 := 1 / inv_tau2
  let call3 : ℝ × ℝ := (dt.a_sigma + (dt.p : ℝ),
    1 / (dt.b_sigma + 0.5 * sum_beta2 * inv_tau2 + 0.5 * sum_eps2))
  let inv_sigma2_eps := gg (s.rngG + 2)
  let sigma2_eps := 1 / inv_sigma2_eps
  ({ betacoef := betacoef, sigma2_eps := sigma2_eps, tau2 := tau2, b_tau := b_tau,
     mu := mu, rngN := s.rngN + dt.p, rngG := s.rngG + 3 },
   [call1, call2, call3])

/-! ## The `fast_normal_lm` entry point (source lines 248–338) -/

/-- Result of a `fast_normal_lm` run: posterior-mean summaries and the
stored MCMC draw sequences (one entry per retained iteration). -/
structure LmResult where
  post_mean_mu : List ℝ
  post_mean_betacoef : List ℝ
  post_mean_sigma2_eps : ℝ
  post_mean_tau2 : ℝ
  mcmc_betacoef : List (List ℝ)
  mcmc_sigma2_eps : List ℝ
  mcmc_tau2 : List ℝ

/-- The run-constant data of `fast_normal_lm` (source lines 256–272):
the economy SVD `X = U diag(d) Vᵗ` is delivered by the external `svdf`
collaborator, `ys = Uᵗy`, `d2 = d∘d`, `A2 = A_tau²`. -/
def fast_normal_lm_data (y : List ℝ) (X : List (List ℝ))
    (a_sigma b_sigma A_tau : ℝ)
    (svdf : List (List ℝ) → List (List ℝ) × List ℝ × List (List ℝ)) : LmData :=
  let U := (svdf X).1
  let d := (svdf X).2.1
  let V := (svdf X).2.2
  { ys := matVec (transposeM U) y, V := V, d := d, d2 := vHad d d, y := y, X := X,
    A2 := A_tau * A_tau, a_sigma := a_sigma, b_sigma := b_sigma,
    p := (X.headD []).length, n := X.length }

/-- The initial kernel state of `fast_normal_lm` (source lines
267–276): `σ²_ε = b_σ/a_σ`, `b_τ = τ² = A_τ²`, `betacoef` and `mu`
default-constructed (empty). -/
def fast_normal_lm_init (a_sigma b_sigma A_tau : ℝ) : LmState :=
  { betacoef := [], sigma2_eps := b_sigma / a_sigma, tau2 := A_tau * A_tau,
    b_tau := A_tau * A_tau, mu := [], rngN := 0, rngG := 0 }

/-- The kernel variant `fast_normal_lm` selects at initialization
(source line 287): observation-major when `p < n`, predictor-major
otherwise; fixed for the whole run. -/
def normalChainStep (dt : LmData) (gn gg : ℕ → ℝ) : LmState → LmState :=
  if dt.p < dt.n then fun s => (one_step_update_big_n dt gn gg s).1
  else fun s => (one_step_update_big_p dt gn gg s).1

/-- Embedding of `fast_normal_lm` (source lines 248–338). -/
def fast_normal_lm (y : List ℝ) (X : List (List ℝ))
    (mcmc_sample burnin thinning : ℕ) (a_sigma b_sigma A_tau : ℝ)
    (svdf : List (List ℝ) → List (List ℝ) × List ℝ × List (List ℝ))
    (gn gg : ℕ → ℝ) : LmResult :=
  let dt := fast_normal_lm_data y X a_sigma b_sigma A_tau svdf
  let draws := (runChain (normalChainStep dt gn gg) burnin mcmc_sample thinning
    (fast_normal_lm_init a_sigma b_sigma A_tau)).2
  let bmean := colwiseMean (draws.map (fun s => s.betacoef)) dt.p
  { post_mean_mu := matVec X bmean,
    post_mean_betacoef := bmean,
    post_mean_sigma2_eps := meanR (draws.map (fun s => s.sigma2_eps)),
    post_mean_tau2 := meanR (draws.map (fun s => s.tau2)),
    mcmc_betacoef := draws.map (fun s => s.betacoef),
    mcmc_sigma2_eps := draws.map (fun s => s.sigma2_eps),
    mcmc_tau2 := draws.map (fun s => s.tau2) }

lemma getD_map_lt {α β : Type} (f : α → β) (l : List α) (i : ℕ)
    (h : i < l.length) (d : β) (d0 : α) :
    (l.map f).getD i d = f (l.getD i d0) := by
  rw [List.getD_eq_getElem _ _ (by simpa using h), List.getD_eq_getElem _ _ h,
    List.getElem_map]

lemma fast_normal_lm_mcmc_sigma2_length (y : List ℝ) (X : List (List ℝ))
    (mcmc_sample burnin thinning : ℕ) (a_sigma b_sigma A_tau : ℝ)
    (svdf : List (List ℝ) → List (List ℝ) × List ℝ × List (List ℝ))
    (gn gg : ℕ → ℝ) :
    (fast_normal_lm y X mcmc_sample burnin thinning a_sigma b_sigma A_tau
      svdf gn gg).mcmc_sigma2_eps.length = mcmc_sample := by
  simp [fast_normal_lm, runChain_length]

/-- C1 counterexample: in the observation-major route (`p < n`) of
`fast_normal_lm`, the gamma draw for `1/σ²_ε` does NOT use the shape
`a_σ + (n+p)/2` stated by the spec: with `a_σ = 0`, `p = 1`, `n = 2`
the kernel passes shape `a_σ + p = 1`, not `(0+3)/2 = 3/2`. -/
theorem one_step_big_n_sigma_shape_cex :
    (((one_step_update_big_n
        ⟨[1, 1], [[1]], [1], [1], [1, 1], [[1], [1]], 1, 0, 1, 1, 2⟩
        (fun _ => 1) (fun _ => 1)
        ⟨[1], 1, 1, 1, [1, 1], 0, 0⟩).2.getD 2 (0, 0)).1) ≠
      0 + ((2 : ℝ) + (1 : ℝ)) / 2 := by
  norm_num [one_step_update_big_n]

/-- C1 amended: in `fast_normal_lm`, the predictor-major kernel
(`p ≥ n`) draws `1/σ²_ε` from a gamma distribution with shape
`a_σ + (n+p)/2` and rate `b_σ + Σβ²/(2τ²) + Σ(y − Xβ)²/2`, the
residual sum of squares taken in the original `n`-dimensional
observation space; the observation-major kernel (`p < n`) instead uses
shape `a_σ + p` and forms both sums in the SVD-rotated basis: the
coefficient sum `Σβ_s²` and the rotated residual `Σ(Uᵗy − d∘β_s)²`.
(`arma::randg` is parameterized by shape and scale = 1/rate.) -/
theorem one_step_sigma_draw_params (dt : LmData) (gn gg : ℕ → ℝ) (s : LmState)
    (hg : 0 < gg s.rngG) :
    ((one_step_update_big_p dt gn gg s).2.getD 2 (0, 0)).1 =
        dt.a_sigma + ((dt.n : ℝ) + (dt.p : ℝ)) / 2 ∧
    ((one_step_update_big_p dt gn gg s).2.getD 2 (0, 0)).2 =
        1 / (dt.b_sigma +
          0.5 * sumSq (one_step_update_big_p dt gn gg s).1.betacoef /
            (one_step_update_big_p dt gn gg s).1.tau2 +
          0.5 * sumSq (vSub dt.y
            (matVec dt.X (one_step_update_big_p dt gn gg s).1.betacoef))) ∧
    ((one_step_update_big_n dt gn gg s).2.getD 2 (0, 0)).1 =
        dt.a_sigma + (dt.p : ℝ) ∧
    ((one_step_update_big_n dt gn gg s).2.getD 2 (0, 0)).2 =
        1 / (dt.b_sigma +
          0.5 * sumSq (bigN_beta_s dt gn s) /
            (one_step_update_big_n dt gn gg s).1.tau2 +
          0.5 * sumSq (vSub dt.ys (vHad dt.d (bigN_beta_s dt gn s)))) := by
  have hne : gg s.rngG ≠ 0 := ne_of_gt hg
  refine ⟨?_, ?_, ?_, ?_⟩
  · simp [one_step_update_big_p]
  · simp only [one_step_update_big_p]
    rw [List.getD_eq_getElem _ _ (by simp)]
    simp only [List.getElem_cons_succ, List.getElem_cons_zero]
    rw [div_div_eq_mul_div, div_one]
  · simp [one_step_update_big_n]
  · simp only [one_step_update_big_n]
    rw [List.getD_eq_getElem _ _ (by simp)]
    simp only [List.getElem_cons_succ, List.getElem_cons_zero]
    rw [div_div_eq_mul_div, div_one]

/-- Witness for the C1 amended theorem at a concrete kernel input with
all oracle values equal to `1`. -/
theorem one_step_sigma_draw_params_witness :
    ((one_step_update_big_p
        ⟨[1, 1], [[1]], [1], [1], [1, 1], [[1], [1]], 1, 0, 1, 1, 2⟩
        (fun _ => 1) (fun _ => 1)
        ⟨[1], 1, 1, 1, [1, 1], 0, 0⟩).2.getD 2 (0, 0)).1 =
      (0 : ℝ) + (((2 : ℕ) : ℝ) + ((1 : ℕ) : ℝ)) / 2 :=
  (one_step_sigma_draw_params
    ⟨[1, 1], [[1]], [1], [1], [1, 1], [[1], [1]], 1, 0, 1, 1, 2⟩
    (fun _ => 1) (fun _ => 1)
    ⟨[1], 1, 1, 1, [1, 1], 0, 0⟩ one_pos).1

/-- C3: for every `fast_normal_lm` call with `thinning ≥ 1` the driver
invokes the one-step kernel exactly `burnin + mcmc_sample·thinning`
times, the returned `betacoef` draw sequence has exactly `mcmc_sample`
entries, and each stored draw is the state reached strictly after the
`burnin` kernel invocations (no burn-in draw is stored). -/
theorem fast_normal_lm_bookkeeping (y : List ℝ) (X : List (List ℝ))
    (mcmc_sample burnin thinning : ℕ) (a_sigma b_sigma A_tau : ℝ)
    (svdf : List (List ℝ) → List (List ℝ) × List ℝ × List (List ℝ))
    (gn gg : ℕ → ℝ) (hthin : 1 ≤ thinning) :
    (∀ (σ : Type) (f : σ → σ) (s : σ),
      ((runChain (countingStep f) burnin mcmc_sample thinning (s, 0)).1).2 =
        burnin + mcmc_sample * thinning) ∧
    (fast_normal_lm y X mcmc_sample burnin thinning a_sigma b_sigma A_tau
      svdf gn gg).mcmc_betacoef.length = mcmc_sample ∧
    (∀ i, i < mcmc_sample →
      (fast_normal_lm y X mcmc_sample burnin thinning a_sigma b_sigma A_tau
          svdf gn gg).mcmc_betacoef.getD i [] =
        ((normalChainStep (fast_normal_lm_data y X a_sigma b_sigma A_tau svdf)
            gn gg)^[burnin + (i + 1) * thinning]
          (fast_normal_lm_init a_sigma b_sigma A_tau)).betacoef ∧
      burnin < burnin + (i + 1) * thinning) := by
  refine ⟨fun σ f s => runChain_count f burnin mcmc_sample thinning s, ?_, ?_⟩
  · simp [fast_normal_lm, runChain_length]
  · intro i hi
    constructor
    · have hlen : i < (runChain
          (normalChainStep (fast_normal_lm_data y X a_sigma b_sigma A_tau svdf) gn gg)
          burnin mcmc_sample thinning
          (fast_normal_lm_init a_sigma b_sigma A_tau)).2.length := by
        rw [runChain_length]; exact hi
      simp only [fast_normal_lm]
      rw [getD_map_lt _ _ i hlen []
        (fast_normal_lm_init a_sigma b_sigma A_tau), runChain_getD _ _ _ _ _ i hi]
    · exact Nat.lt_add_of_pos_right (Nat.mul_pos (Nat.succ_pos i) hthin)

/-- Witness for C3 with `thinning = 1`, `mcmc_sample = 2`,
`burnin = 1` on a tiny concrete problem. -/
theorem fast_normal_lm_bookkeeping_witness :
    (fast_normal_lm [1, 1] [[1], [1]] 2 1 1 0.01 0.01 10
      (fun _ => ([[1, 0], [0, 1]], [1, 1], [[1], [1]]))
      (fun _ => 1) (fun _ => 1)).mcmc_betacoef.length = 2 :=
  (fast_normal_lm_bookkeeping [1, 1] [[1], [1]] 2 1 1 0.01 0.01 10
    (fun _ => ([[1, 0], [0, 1]], [1, 1], [[1], [1]]))
    (fun _ => 1) (fun _ => 1) (le_refl 1)).2.1

/-- C2 evidence: the embedded `fast_normal_lm` contains no dimension
guard — called with a response of length 1 against a design matrix
with 2 rows, it still runs the sampler and returns a full chain of
`mcmc_sample` draws instead of failing fast. -/
theorem fast_normal_lm_no_dimension_check :
    (fast_normal_lm [1] [[1], [1]] 3 2 1 0.01 0.01 10
      (fun _ => ([[1, 0], [0, 1]], [1, 1], [[1], [1]]))
      (fun _ => 1) (fun _ => 1)).mcmc_sigma2_eps.length = 3 :=
  fast_normal_lm_mcmc_sigma2_length [1] [[1], [1]] 3 2 1 0.01 0.01 10
    (fun _ => ([[1, 0], [0, 1]], [1, 1], [[1], [1]]))
    (fun _ => 1) (fun _ => 1)

/-! ## Dense linear algebra used by the horseshoe kernels

`arma::solve(A, b)` on a square system is modelled by its denotation
`A⁻¹ b` (via the Mathlib matrix inverse); `arma::chol(A)` by a
recursive Cholesky factorization returning the upper factor `R` with
`A = RᵗR`. -/

/-- Denotation of `arma::solve(A, b)` for a square system: `A⁻¹ b`,
computed through the Mathlib matrix inverse on `Fin k`. -/
def armaSolve (A : List (List ℝ)) (b : List ℝ) : List ℝ :=
  let k := b.length
  let M : Matrix (Fin k) (Fin k) ℝ := Matrix.of fun i j => (A.getD i.1 []).getD j.1 0
  let v : Fin k → ℝ := fun i => b.getD i.1 0
  (List.finRange k).map (fun i => Matrix.mulVec M⁻¹ v i)

/-- Lower Cholesky factor of a symmetric positive-definite matrix,
computed by the standard recursion on the leading entry and the Schur
complement. -/
def cholLow : List (List ℝ) → List (List ℝ)
  | [] => []
  | row :: rows =>
    (Real.sqrt (row.headD 0) :: List.replicate rows.length 0) ::
      List.zipWith (fun bi lrow => bi / Real.sqrt (row.headD 0) :: lrow)
        (rows.map (fun r => r.headD 0))
        (cholLow (List.zipWith
          (fun r bi => List.zipWith (fun c bj => c - bi * bj / row.headD 0) r.tail
            (rows.map (fun r2 => r2.headD 0)))
          rows (rows.map (fun r2 => r2.headD 0))))
termination_by M => M.length
decreasing_by simp

/-- Denotation of `arma::chol(A)`: the upper-triangular factor `R`
with `A = RᵗR`. -/
def chol (A : List (List ℝ)) : List (List ℝ) := transposeM (cholLow A)

/-! ## Horseshoe-prior Gaussian regression kernels
(source lines 914–1045) -/

/-- The state mutated in place by the horseshoe linear-model kernels,
plus the oracle stream positions. -/
structure HsState where
  betacoef : List ℝ
  lambda : List ℝ
  b_lambda : List ℝ
  mu : List ℝ
  sigma2_eps : ℝ
  tau2 : ℝ
  b_tau : ℝ
  rngN : ℕ
  rngG : ℕ
  rngU : ℕ

/-- The data fixed for one horseshoe linear-model run. -/
structure HsData where
  ys : List ℝ
  dys : List ℝ
  V : List (List ℝ)
  d : List ℝ
  d2 : List ℝ
  y : List ℝ
  X : List (List ℝ)
  VD : List (List ℝ)
  A2 : ℝ
  A2_lambda : ℝ
  a_sigma : ℝ
  b_sigma : ℝ
  p : ℕ
  n : ℕ

/-- Embedding of `hs_one_step_update_big_n` (source lines 986–1045),
the observation-major (`p < n`) kernel of `fast_horseshoe_lm`. -/
def hs_one_step_update_big_n (dt : HsData) (gn gg : ℕ → ℝ) (s : HsState) : HsState :=
  let sigma_eps := Real.sqrt s.sigma2_eps
  let lambda_tau := vScale (Real.sqrt s.tau2) s.lambda
  let V_d_lambda := List.zipWith (fun r lt => r.map (fun v => v / lt)) dt.V lambda_tau
  let VtV := addDiag (matMul (transposeM V_d_lambda) V_d_lambda) dt.d2
  let R := chol VtV
  let bv := armaSolve (transposeM R) (dt.dys.map (fun t => t / sigma_eps))
  let alpha := streamVec gn s.rngN dt.p
  let betacoef := vScale sigma_eps (matVec dt.V (armaSolve R (vAdd alpha bv)))
  let betacoef2 := vHad betacoef betacoef
  let inv_lambda2 := List.zipWith (fun g den => g / den) (streamVec gg s.rngG dt.p)
    (List.zipWith (fun bl b2 => bl + 0.5 * b2 / s.tau2 / s.sigma2_eps)
      s.b_lambda betacoef2)
  let lambda := inv_lambda2.map (fun t => Real.sqrt (1 / t))
  let b_lambda := List.zipWith (fun g il => g / (1 / dt.A2_lambda + il))
    (streamVec gg (s.rngG + dt.p) dt.p) inv_lambda2
  let mu := matVec dt.X betacoef
  let eps := vSub dt.y mu
  let sum_eps2 := sumSq eps
  let sum_beta2_inv_lambda2 := dotL betacoef2 inv_lambda2
  let inv_tau2 := gg (s.rngG + 2 * dt.p)
  let b_tau := gg (s.rngG + 2 * dt.p + 1)
  let tau2 := 1 / inv_tau2
  let inv_sigma2_eps := gg (s.rngG + 2 * dt.p + 2)
  let sigma2_eps := 1 / inv_sigma2_eps
  { betacoef := betacoef, lambda := lambda, b_lambda := b_lambda, mu := mu,
    sigma2_eps := sigma2_eps, tau2 := tau2, b_tau := b_tau,
    rngN := s.rngN + dt.p, rngG := s.rngG + 2 * dt.p + 3, rngU := s.rngU }

/-- Embedding of `hs_one_step_update_big_p` (source lines 914–980),
the predictor-major (`p ≥ n`) kernel of `fast_horseshoe_lm`. -/
def hs_one_step_update_big_p (dt : HsData) (gn gg : ℕ → ℝ) (s : HsState) : HsState :=
  let sigma_eps := Real.sqrt s.sigma2_eps
  let tau := Real.sqrt s.tau2
  let inv_tau2 := 1 / s.tau2
  let alpha_1 := vScale (sigma_eps * tau) (vHad (streamVec gn s.rngN dt.p) s.lambda)
  let alpha_2 := vScale sigma_eps (streamVec gn (s.rngN + dt.p) dt.n)
  let LambdaVD := List.zipWith (fun r l => r.map (fun v => v * l)) dt.VD s.lambda
  let Z := addDiag (matMul (transposeM LambdaVD) LambdaVD) (List.replicate dt.n inv_tau2)
  let beta_s := armaSolve Z
    (vSub (vSub dt.ys (matVec (transposeM dt.VD) alpha_1)) alpha_2)
  let betacoef := vAdd alpha_1 (vHad (vHad s.lambda s.lambda) (matVec dt.VD beta_s))
  let betacoef2 := vHad betacoef betacoef
  let inv_lambda2 := List.zipWith (fun g den => g / den) (streamVec gg s.rngG dt.p)
    (List.zipWith (fun bl b2 => bl + 0.5 * b2 / s.tau2 / s.sigma2_eps)
      s.b_lambda betacoef2)
  let b_lambda := List.zipWith (fun g il => g / (1 / dt.A2_lambda + il))
    (streamVec gg (s.rngG + dt.p) dt.p) inv_lambda2
  let lambda := inv_lambda2.map (fun t => Real.sqrt (1 / t))
  let sum_beta2_inv_lambda2 := dotL betacoef2 inv_lambda2
  let inv_tau2_new := gg (s.rngG + 2 * dt.p)
  let b_tau := gg (s.rngG + 2 * dt.p + 1)
  let tau2 := 1 / inv_tau2_new
  let mu := matVec dt.X betacoef
  let eps := vSub dt.y mu
  let sum_eps2 := sumSq eps
  let inv_sigma2_eps := gg (s.rngG + 2 * dt.p + 2)
  let sigma2_eps := 1 / inv_sigma2_eps
  { betacoef := betacoef, lambda := lambda, b_lambda := b_lambda, mu := mu,
    sigma2_eps := sigma2_eps, tau2 := tau2, b_tau := b_tau,
    rngN := s.rngN + dt.p + dt.n, rngG := s.rngG + 2 * dt.p + 3, rngU := s.rngU }

/-! ## The `fast_horseshoe_lm` entry point (source lines 1092–1202) -/

/-- Result of a horseshoe linear-model run. -/
structure HsResult where
  post_mean_mu : List ℝ
  post_mean_betacoef : List ℝ
  post_mean_lambda : List ℝ
  post_mean_sigma2_eps : ℝ
  post_mean_tau2 : ℝ
  mcmc_betacoef : List (List ℝ)
  mcmc_lambda : List (List ℝ)
  mcmc_sigma2_eps : List ℝ
  mcmc_tau2 : List ℝ

/-- The run-constant data of `fast_horseshoe_lm` (source lines
1100–1118 and 1160–1163): SVD pieces, `ys = Uᵗy`, `dys = d∘ys`,
`d2 = d∘d`, and the row-scaled `VD` (`VD.row(j) %= d.t()`) used by the
predictor-major branch. -/
def fast_horseshoe_lm_data (y : List ℝ) (X : List (List ℝ))
    (a_sigma b_sigma A_tau A_lambda : ℝ)
    (svdf : List (List ℝ) → List (List ℝ) × List ℝ × List (List ℝ)) : HsData :=
  let U := (svdf X).1
  let d := (svdf X).2.1
  let V := (svdf X).2.2
  let ys := matVec (transposeM U) y
  { ys := ys, dys := vHad d ys, V := V, d := d, d2 := vHad d d, y := y, X := X,
    VD := V.map (fun r => vHad r d),
    A2 := A_tau * A_tau, A2_lambda := A_lambda * A_lambda,
    a_sigma := a_sigma, b_sigma := b_sigma,
    p := (X.headD []).length, n := X.length }

/-- The initial kernel state of `fast_horseshoe_lm` (source lines
1105–1126): `σ²_ε = b_σ/a_σ` when `a_σ ≠ 0` and `1` otherwise,
`b_τ = 1`, `τ² = 1/p`, `λ = b_λ = 1` coordinatewise. -/
def fast_horseshoe_lm_init (p : ℕ) (a_sigma b_sigma : ℝ) : HsState :=
  { betacoef := [], lambda := List.replicate p 1, b_lambda := List.replicate p 1,
    mu := [], sigma2_eps := if a_sigma ≠ 0 then b_sigma / a_sigma else 1,
    tau2 := 1 / (p : ℝ), b_tau := 1, rngN := 0, rngG := 0, rngU := 0 }

/-- The initial kernel state of `fast_horseshoe_ss_lm` (source lines
1372–1391): identical initialization, in particular the same guarded
`σ²_ε` formula. -/
def fast_horseshoe_ss_lm_init (p : ℕ) (a_sigma b_sigma : ℝ) : HsState :=
  { betacoef := [], lambda := List.replicate p 1, b_lambda := List.replicate p 1,
    mu := [], sigma2_eps := if a_sigma ≠ 0 then b_sigma / a_sigma else 1,
    tau2 := 1 / (p : ℝ), b_tau := 1, rngN := 0, rngG := 0, rngU := 0 }

/-- The initial kernel state of `fast_horseshoe_hd_lm` (source lines
1526–1543): identical initialization, in particular the same guarded
`σ²_ε` formula. -/
def fast_horseshoe_hd_lm_init (p : ℕ) (a_sigma b_sigma : ℝ) : HsState :=
  { betacoef := [], lambda := List.replicate p 1, b_lambda := List.replicate p 1,
    mu := [], sigma2_eps := if a_sigma ≠ 0 then b_sigma / a_sigma else 1,
    tau2 := 1 / (p : ℝ), b_tau := 1, rngN := 0, rngG := 0, rngU := 0 }

/-- The kernel variant `fast_horseshoe_lm` selects at initialization
(source line 1140): observation-major when `p < n`, predictor-major
otherwise; fixed for the whole run. -/
def hsChainStep (dt : HsData) (gn gg : ℕ → ℝ) : HsState → HsState :=
  if dt.p < dt.n then hs_one_step_update_big_n dt gn gg
  else hs_one_step_update_big_p dt gn gg

/-- Embedding of `fast_horseshoe_lm` (source lines 1092–1202). -/
def fast_horseshoe_lm (y : List ℝ) (X : List (List ℝ))
    (mcmc_sample burnin thinning : ℕ) (a_sigma b_sigma A_tau A_lambda : ℝ)
    (svdf : List (List ℝ) → List (List ℝ) × List ℝ × List (List ℝ))
    (gn gg : ℕ → ℝ) : HsResult :=
  let dt := fast_horseshoe_lm_data y X a_sigma b_sigma A_tau A_lambda svdf
  let draws := (runChain (hsChainStep dt gn gg) burnin mcmc_sample thinning
    (fast_horseshoe_lm_init dt.p a_sigma b_sigma)).2
  let bmean := colwiseMean (draws.map (fun s => s.betacoef)) dt.p
  { post_mean_mu := matVec X bmean,
    post_mean_betacoef := bmean,
    post_mean_lambda := colwiseMean (draws.map (fun s => s.lambda)) dt.p,
    post_mean_sigma2_eps := meanR (draws.map (fun s => s.sigma2_eps)),
    post_mean_tau2 := meanR (draws.map (fun s => s.tau2)),
    mcmc_betacoef := draws.map (fun s => s.betacoef),
    mcmc_lambda := draws.map (fun s => s.lambda),
    mcmc_sigma2_eps := draws.map (fun s => s.sigma2_eps),
    mcmc_tau2 := draws.map (fun s => s.tau2) }

/-! ## The remaining horseshoe linear-model kernels and entry points
(source lines 1205–1318, 1363–1470, 1517–1621) -/

/-- Embedding of `hs_one_step_update` (source lines 1205–1246), the
predictor-major kernel of `fast_horseshoe_hd_lm`: gamma-auxiliary
hyperparameter updates working on `X` directly (no SVD), with the
noise variance drawn before the global scale. -/
def hs_one_step_update (dt : HsData) (gn gg : ℕ → ℝ) (s : HsState) : HsState :=
  let sigma_eps := Real.sqrt s.sigma2_eps
  let tau := Real.sqrt s.tau2
  let inv_tau2 := 1 / s.tau2
  let alpha_1 := vScale (sigma_eps * tau) (vHad (streamVec gn s.rngN dt.p) s.lambda)
  let alpha_2 := vScale sigma_eps (streamVec gn (s.rngN + dt.p) dt.n)
  let XLambda := dt.X.map (fun r => vHad r s.lambda)
  let Z := addDiag (matMul XLambda (transposeM XLambda)) (List.replicate dt.n inv_tau2)
  let beta_s := armaSolve Z (vSub (vSub dt.y (matVec dt.X alpha_1)) alpha_2)
  let betacoef := vAdd alpha_1 (vHad s.lambda (matVec (transposeM XLambda) beta_s))
  let betacoef2 := vHad betacoef betacoef
  let inv_lambda2 := List.zipWith (fun g den => g / den) (streamVec gg s.rngG dt.p)
    (List.zipWith (fun bl b2 => bl + 0.5 * b2 / s.tau2 / s.sigma2_eps)
      s.b_lambda betacoef2)
  let b_lambda := List.zipWith (fun g il => g / (1 / dt.A2_lambda + il))
    (streamVec gg (s.rngG + dt.p) dt.p) inv_lambda2
  let lambda := inv_lambda2.map (fun t => Real.sqrt (1 / t))
  let mu := matVec dt.X betacoef
  let eps := vSub dt.y mu
  let sum_eps2 := sumSq eps
  let sum_beta2_inv_lambda2 := dotL betacoef2 inv_lambda2
  let inv_sigma2_eps := gg (s.rngG + 2 * dt.p)
  let sigma2_eps := 1 / inv_sigma2_eps
  let inv_tau2_new := gg (s.rngG + 2 * dt.p + 1)
  let b_tau := gg (s.rngG + 2 * dt.p + 2)
  let tau2 := 1 / inv_tau2_new
  { betacoef := betacoef, lambda := lambda, b_lambda := b_lambda, mu := mu,
    sigma2_eps := sigma2_eps, tau2 := tau2, b_tau := b_tau,
    rngN := s.rngN + dt.p + dt.n, rngG := s.rngG + 2 * dt.p + 3, rngU := s.rngU }

/-- The coefficient draw of the slice-sampler kernel (source lines
1256–1269): prior draw `alpha_1` plus the dual-space correction. -/
def slice_betacoef (dt : HsData) (gn : ℕ → ℝ) (s : HsState) : List ℝ :=
  let alpha_1 := vScale (Real.sqrt s.sigma2_eps * Real.sqrt s.tau2)
    (vHad (streamVec gn s.rngN dt.p) s.lambda)
  let alpha_2 := vScale (Real.sqrt s.sigma2_eps) (streamVec gn (s.rngN + dt.p) dt.n)
  let XLambda := dt.X.map (fun r => vHad r s.lambda)
  let Z := addDiag (matMul XLambda (transposeM XLambda)) (List.replicate dt.n (1 / s.tau2))
  let beta_s := armaSolve Z (vSub (vSub dt.y (matVec dt.X alpha_1)) alpha_2)
  vAdd alpha_1 (vHad s.lambda (matVec (transposeM XLambda) beta_s))

/-- The local-shrinkage precisions `1/λ_j²` drawn by the slice sampler
(source lines 1272–1278): exact inverse-CDF slice draws from the
truncated gamma density, `-log1p(-υ(1-e^{-BC}))/B`.  These are the
gamma variates this kernel draws for `λ`. -/
def slice_inv_lambda2 (dt : HsData) (gn gu : ℕ → ℝ) (s : HsState) : List ℝ :=
  let betacoef2 := vHad (slice_betacoef dt gn s) (slice_betacoef dt gn s)
  let B := betacoef2.map (fun b2 => 0.5 * b2 / s.tau2 / s.sigma2_eps)
  let u_lambda := vHad (streamVec gu s.rngU dt.p)
    (s.lambda.map (fun l => dt.A2_lambda / (1 + dt.A2_lambda * (1 / (l * l)))))
  let upsilon := streamVec gu (s.rngU + dt.p) dt.p
  let C := u_lambda.map (fun u => 1 / u - 1 / dt.A2_lambda)
  vDiv (List.zipWith
    (fun up bc => 0 - Real.log (1 + (0 - up * (1 - Real.exp (0 - bc)))))
    upsilon (vHad B C)) B

/-- The global-shrinkage precision `1/τ²` drawn by the slice sampler
(source lines 1284–1294) through the external gamma CDF/quantile
service: `qgamma(u·pgamma(C_τ, (p+1)/2, B_τ), (p+1)/2, B_τ)`.  This is
the gamma variate this kernel draws for `τ`. -/
def slice_inv_tau2 (dt : HsData) (gn gu : ℕ → ℝ)
    (pgam qgam : ℝ → ℝ → ℝ → ℝ) (s : HsState) : ℝ :=
  let betacoef2 := vHad (slice_betacoef dt gn s) (slice_betacoef dt gn s)
  let sum_beta2_inv_lambda2 := dotL betacoef2 (slice_inv_lambda2 dt gn gu s)
  let B_tau := 0.5 * sum_beta2_inv_lambda2 / s.sigma2_eps
  let u_tau := gu (s.rngU + 2 * dt.p) * (dt.A2 / (1 + dt.A2 * (1 / s.tau2)))
  let C_tau := 1 / u_tau - 1 / dt.A2
  qgam (gu (s.rngU + 2 * dt.p + 1) * pgam C_tau (((dt.p : ℝ) + 1) / 2) B_tau)
    (((dt.p : ℝ) + 1) / 2) B_tau

/-- Embedding of `hs_one_step_update_slice_sampler` (source lines
1248–1318), the predictor-major kernel of `fast_horseshoe_ss_lm`: the
`λ` and `τ` precisions come from the inverse-CDF slice draws above,
the slice auxiliaries `u_λ`, `u_τ` occupy the `b_λ`, `b_τ` slots, and
the noise precision is an ordinary gamma draw. -/
def hs_one_step_update_slice_sampler (dt : HsData) (gn gu gg : ℕ → ℝ)
    (pgam qgam : ℝ → ℝ → ℝ → ℝ) (s : HsState) : HsState :=
  let betacoef := slice_betacoef dt gn s
  let inv_lambda2 := slice_inv_lambda2 dt gn gu s
  let u_lambda := vHad (streamVec gu s.rngU dt.p)
    (s.lambda.map (fun l => dt.A2_lambda / (1 + dt.A2_lambda * (1 / (l * l)))))
  let lambda := inv_lambda2.map (fun t => Real.sqrt (1 / t))
  let inv_tau2 := slice_inv_tau2 dt gn gu pgam qgam s
  let u_tau := gu (s.rngU + 2 * dt.p) * (dt.A2 / (1 + dt.A2 * (1 / s.tau2)))
  let tau2 := 1 / inv_tau2
  let mu := matVec dt.X betacoef
  let eps := vSub dt.y mu
  let sum_eps2 := sumSq eps
  let inv_sigma2_eps := gg s.rngG
  let sigma2_eps := 1 / inv_sigma2_eps
  { betacoef := betacoef, lambda := lambda, b_lambda := u_lambda, mu := mu,
    sigma2_eps := sigma2_eps, tau2 := tau2, b_tau := u_tau,
    rngN := s.rngN + dt.p + dt.n, rngG := s.rngG + 1,
    rngU := s.rngU + 2 * dt.p + 2 }

/-- The kernel variant `fast_horseshoe_hd_lm` selects at
initialization (source line 1556): observation-major SVD kernel when
`p < n`, direct gamma-auxiliary kernel otherwise. -/
def hdChainStep (dt : HsData) (gn gg : ℕ → ℝ) : HsState → HsState :=
  if dt.p < dt.n then hs_one_step_update_big_n dt gn gg
  else hs_one_step_update dt gn gg

/-- The kernel variant `fast_horseshoe_ss_lm` selects at
initialization (source line 1405): observation-major SVD kernel when
`p < n`, slice-sampler kernel otherwise. -/
def ssChainStep (dt : HsData) (gn gu gg : ℕ → ℝ)
    (pgam qgam : ℝ → ℝ → ℝ → ℝ) : HsState → HsState :=
  if dt.p < dt.n then hs_one_step_update_big_n dt gn gg
  else hs_one_step_update_slice_sampler dt gn gu gg pgam qgam

/-- Embedding of `fast_horseshoe_hd_lm` (source lines 1517–1621). -/
def fast_horseshoe_hd_lm (y : List ℝ) (X : List (List ℝ))
    (mcmc_sample burnin thinning : ℕ) (a_sigma b_sigma A_tau A_lambda : ℝ)
    (svdf : List (List ℝ) → List (List ℝ) × List ℝ × List (List ℝ))
    (gn gg : ℕ → ℝ) : HsResult :=
  let dt := fast_horseshoe_lm_data y X a_sigma b_sigma A_tau A_lambda svdf
  let draws := (runChain (hdChainStep dt gn gg) burnin mcmc_sample thinning
    (fast_horseshoe_hd_lm_init dt.p a_sigma b_sigma)).2
  let bmean := colwiseMean (draws.map (fun s => s.betacoef)) dt.p
  { post_mean_mu := matVec X bmean,
    post_mean_betacoef := bmean,
    post_mean_lambda := colwiseMean (draws.map (fun s => s.lambda)) dt.p,
    post_mean_sigma2_eps := meanR (draws.map (fun s => s.sigma2_eps)),
    post_mean_tau2 := meanR (draws.map (fun s => s.tau2)),
    mcmc_betacoef := draws.map (fun s => s.betacoef),
    mcmc_lambda := draws.map (fun s => s.lambda),
    mcmc_sigma2_eps := draws.map (fun s => s.sigma2_eps),
    mcmc_tau2 := draws.map (fun s => s.tau2) }

/-- Embedding of `fast_horseshoe_ss_lm` (source lines 1363–1470).
`pgam`/`qgam` are the external gamma CDF and quantile services used by
the slice route. -/
def fast_horseshoe_ss_lm (y : List ℝ) (X : List (List ℝ))
    (mcmc_sample burnin thinning : ℕ) (a_sigma b_sigma A_tau A_lambda : ℝ)
    (svdf : List (List ℝ) → List (List ℝ) × List ℝ × List (List ℝ))
    (gn gu gg : ℕ → ℝ) (pgam qgam : ℝ → ℝ → ℝ → ℝ) : HsResult :=
  let dt := fast_horseshoe_lm_data y X a_sigma b_sigma A_tau A_lambda svdf
  let draws := (runChain (ssChainStep dt gn gu gg pgam qgam) burnin mcmc_sample
    thinning (fast_horseshoe_ss_lm_init dt.p a_sigma b_sigma)).2
  let bmean := colwiseMean (draws.map (fun s => s.betacoef)) dt.p
  { post_mean_mu := matVec X bmean,
    post_mean_betacoef := bmean,
    post_mean_lambda := colwiseMean (draws.map (fun s => s.lambda)) dt.p,
    post_mean_sigma2_eps := meanR (draws.map (fun s => s.sigma2_eps)),
    post_mean_tau2 := meanR (draws.map (fun s => s.tau2)),
    mcmc_betacoef := draws.map (fun s => s.betacoef),
    mcmc_lambda := draws.map (fun s => s.lambda),
    mcmc_sigma2_eps := draws.map (fun s => s.sigma2_eps),
    mcmc_tau2 := draws.map (fun s => s.tau2) }

/-! ## Normal-prior logistic regression kernels and entry point
(source lines 340–543) -/

/-- The state mutated by the normal-prior logistic kernels. -/
structure LogitState where
  betacoef : List ℝ
  omega : List ℝ
  mu : List ℝ
  tau2 : ℝ
  b_tau : ℝ
  rngN : ℕ
  rngG : ℕ

/-- The data fixed for one `fast_normal_logit` run: the recentered
response `y_s = y - 1/2`, the branch precomputations `Xᵗy_s` and
`XXᵗ`, and the hyperparameters. -/
structure LogitData where
  y_s : List ℝ
  Xty_s : List ℝ
  XXt : List (List ℝ)
  X : List (List ℝ)
  A2_tau : ℝ
  p : ℕ
  n : ℕ

/-- Embedding of `one_step_logit_normal_big_n` (source lines 340–369). -/
def one_step_logit_normal_big_n (dt : LogitData) (pg : ℝ → List ℝ → List ℝ)
    (gn gg : ℕ → ℝ) (s : LogitState) : LogitState :=
  let inv_tau2 := 1 / s.tau2
  let OmegaX := List.zipWith (fun r w => r.map (fun v => v * w)) dt.X s.omega
  let XtX := addDiag (matMul (transposeM dt.X) OmegaX) (List.replicate dt.p inv_tau2)
  let R := chol XtX
  let bv := armaSolve (transposeM R) dt.Xty_s
  let alpha := streamVec gn s.rngN dt.p
  let betacoef := armaSolve R (vAdd alpha bv)
  let mu := matVec dt.X betacoef
  let omega := pg 1 mu
  let sum_beta2 := sumSq betacoef
  let inv_tau2_new := gg s.rngG
  let b_tau := gg (s.rngG + 1)
  let tau2 := 1 / inv_tau2_new
  { betacoef := betacoef, omega := omega, mu := mu, tau2 := tau2, b_tau := b_tau,
    rngN := s.rngN + dt.p, rngG := s.rngG + 2 }

/-- Embedding of `one_step_logit_normal_big_p` (source lines 371–405). -/
def one_step_logit_normal_big_p (dt : LogitData) (pg : ℝ → List ℝ → List ℝ)
    (gn gg : ℕ → ℝ) (s : LogitState) : LogitState :=
  let inv_omega := s.omega.map (fun w => 1 / w)
  let alpha1 := vScale (Real.sqrt s.tau2) (streamVec gn s.rngN dt.p)
  let alpha2 := vHad (streamVec gn (s.rngN + dt.p) dt.n)
    (inv_omega.map Real.sqrt)
  let Omega0 := addDiag (dt.XXt.map (fun r => r.map (fun v => s.tau2 * v)))
    inv_omega
  let beta_s := armaSolve Omega0
    (vSub (vSub (vHad dt.y_s inv_omega) (matVec dt.X alpha1)) alpha2)
  let betacoef := vAdd alpha1 (vScale s.tau2 (matVec (transposeM dt.X) beta_s))
  let mu := matVec dt.X betacoef
  let omega := pg 1 mu
  let sum_beta2 := sumSq betacoef
  let inv_tau2 := gg s.rngG
  let b_tau := gg (s.rngG + 1)
  let tau2 := 1 / inv_tau2
  { betacoef := betacoef, omega := omega, mu := mu, tau2 := tau2, b_tau := b_tau,
    rngN := s.rngN + dt.p + dt.n, rngG := s.rngG + 2 }

/-- Result of a normal-prior logistic run. -/
structure LogitResult where
  post_mean_betacoef : List ℝ
  post_mean_tau2 : ℝ
  post_mean_mu : List ℝ
  post_mean_prob : List ℝ
  mcmc_betacoef : List (List ℝ)
  mcmc_tau2 : List ℝ

/-- The run-constant data of `fast_normal_logit` (source lines
461–490). -/
def fast_normal_logit_data (y : List ℝ) (X : List (List ℝ)) (A_tau : ℝ) :
    LogitData :=
  let y_s := vSub y (List.replicate X.length (0.5 : ℝ))
  { y_s := y_s, Xty_s := matVec (transposeM X) y_s, XXt := matMul X (transposeM X),
    X := X, A2_tau := A_tau * A_tau, p := (X.headD []).length, n := X.length }

/-- The initial kernel state of `fast_normal_logit` (source lines
464–478): `b_τ = τ² = A_τ²`, `β = 0`, `μ = 0`,
`ω = pgdraw(1, zeros(n))`. -/
def fast_normal_logit_init (p n : ℕ) (A_tau : ℝ)
    (pg : ℝ → List ℝ → List ℝ) : LogitState :=
  { betacoef := List.replicate p 0, omega := pg 1 (List.replicate n 0),
    mu := List.replicate n 0, tau2 := A_tau * A_tau, b_tau := A_tau * A_tau,
    rngN := 0, rngG := 0 }

/-- The kernel variant `fast_normal_logit` selects at initialization
(source line 489). -/
def normalLogitChainStep (dt : LogitData) (pg : ℝ → List ℝ → List ℝ)
    (gn gg : ℕ → ℝ) : LogitState → LogitState :=
  if dt.p < dt.n then one_step_logit_normal_big_n dt pg gn gg
  else one_step_logit_normal_big_p dt pg gn gg

/-- Embedding of `fast_normal_logit` (source lines 452–543). -/
def fast_normal_logit (y : List ℝ) (X : List (List ℝ))
    (mcmc_sample burnin thinning : ℕ) (A_tau : ℝ)
    (pg : ℝ → List ℝ → List ℝ) (gn gg : ℕ → ℝ) : LogitResult :=
  let dt := fast_normal_logit_data y X A_tau
  let draws := (runChain (normalLogitChainStep dt pg gn gg) burnin mcmc_sample
    thinning (fast_normal_logit_init dt.p dt.n A_tau pg)).2
  let bmean := colwiseMean (draws.map (fun s => s.betacoef)) dt.p
  let mu := matVec X bmean
  { post_mean_betacoef := bmean,
    post_mean_tau2 := meanR (draws.map (fun s => s.tau2)),
    post_mean_mu := mu,
    post_mean_prob := mu.map (fun t => 1 / (1 + Real.exp (0 - t))),
    mcmc_betacoef := draws.map (fun s => s.betacoef),
    mcmc_tau2 := draws.map (fun s => s.tau2) }

/-- C9: in `fast_horseshoe_lm`, `fast_horseshoe_ss_lm` and
`fast_horseshoe_hd_lm` the initial noise variance is `b_σ/a_σ` exactly
when `a_σ ≠ 0` and `1` when `a_σ = 0`, so initialization never divides
by a zero shape hyperparameter. -/
theorem horseshoe_init_sigma2_eps (p : ℕ) (a_sigma b_sigma : ℝ) :
    (a_sigma ≠ 0 →
      (fast_horseshoe_lm_init p a_sigma b_sigma).sigma2_eps = b_sigma / a_sigma ∧
      (fast_horseshoe_ss_lm_init p a_sigma b_sigma).sigma2_eps = b_sigma / a_sigma ∧
      (fast_horseshoe_hd_lm_init p a_sigma b_sigma).sigma2_eps = b_sigma / a_sigma) ∧
    (a_sigma = 0 →
      (fast_horseshoe_lm_init p a_sigma b_sigma).sigma2_eps = 1 ∧
      (fast_horseshoe_ss_lm_init p a_sigma b_sigma).sigma2_eps = 1 ∧
      (fast_horseshoe_hd_lm_init p a_sigma b_sigma).sigma2_eps = 1) := by
  constructor
  · intro h
    refine ⟨?_, ?_, ?_⟩ <;>
      simp [fast_horseshoe_lm_init, fast_horseshoe_ss_lm_init,
        fast_horseshoe_hd_lm_init, h]
  · intro h
    refine ⟨?_, ?_, ?_⟩ <;>
      simp [fast_horseshoe_lm_init, fast_horseshoe_ss_lm_init,
        fast_horseshoe_hd_lm_init, h]

/-- Witness for C9 at `a_σ = 2, b_σ = 3` and at `a_σ = 0`. -/
theorem horseshoe_init_sigma2_eps_witness :
    (fast_horseshoe_lm_init 4 2 3).sigma2_eps = 3 / 2 ∧
    (fast_horseshoe_lm_init 4 0 3).sigma2_eps = 1 :=
  ⟨((horseshoe_init_sigma2_eps 4 2 3).1 two_ne_zero).1,
   ((horseshoe_init_sigma2_eps 4 0 3).2 rfl).1⟩

/-- C5: the computational regime of `fast_normal_lm` and
`fast_horseshoe_lm` is decided exactly once, at initialization, by
comparing `p = X.n_cols` with `n = X.n_rows`: the run-long kernel is
the observation-major variant precisely when `p < n` and the
predictor-major variant otherwise, and every stored draw of the run is
an iterate of that single kernel (so the choice is never re-evaluated
mid-chain). -/
theorem regime_selected_once (y : List ℝ) (X : List (List ℝ))
    (mcmc_sample burnin thinning : ℕ) (a_sigma b_sigma A_tau A_lambda : ℝ)
    (svdf : List (List ℝ) → List (List ℝ) × List ℝ × List (List ℝ))
    (gn gg : ℕ → ℝ) :
    (fast_normal_lm_data y X a_sigma b_sigma A_tau svdf).p = (X.headD []).length ∧
    (fast_normal_lm_data y X a_sigma b_sigma A_tau svdf).n = X.length ∧
    (∀ s, normalChainStep (fast_normal_lm_data y X a_sigma b_sigma A_tau svdf) gn gg s =
      if (fast_normal_lm_data y X a_sigma b_sigma A_tau svdf).p <
          (fast_normal_lm_data y X a_sigma b_sigma A_tau svdf).n
      then (one_step_update_big_n (fast_normal_lm_data y X a_sigma b_sigma A_tau svdf) gn gg s).1
      else (one_step_update_big_p (fast_normal_lm_data y X a_sigma b_sigma A_tau svdf) gn gg s).1) ∧
    (∀ i, i < mcmc_sample →
      (fast_normal_lm y X mcmc_sample burnin thinning a_sigma b_sigma A_tau
          svdf gn gg).mcmc_sigma2_eps.getD i 0 =
        ((normalChainStep (fast_normal_lm_data y X a_sigma b_sigma A_tau svdf)
            gn gg)^[burnin + (i + 1) * thinning]
          (fast_normal_lm_init a_sigma b_sigma A_tau)).sigma2_eps) ∧
    (∀ s, hsChainStep (fast_horseshoe_lm_data y X a_sigma b_sigma A_tau A_lambda svdf) gn gg s =
      if (fast_horseshoe_lm_data y X a_sigma b_sigma A_tau A_lambda svdf).p <
          (fast_horseshoe_lm_data y X a_sigma b_sigma A_tau A_lambda svdf).n
      then hs_one_step_update_big_n (fast_horseshoe_lm_data y X a_sigma b_sigma A_tau A_lambda svdf) gn gg s
      else hs_one_step_update_big_p (fast_horseshoe_lm_data y X a_sigma b_sigma A_tau A_lambda svdf) gn gg s) ∧
    (∀ i, i < mcmc_sample →
      (fast_horseshoe_lm y X mcmc_sample burnin thinning a_sigma b_sigma A_tau
          A_lambda svdf gn gg).mcmc_tau2.getD i 0 =
        ((hsChainStep (fast_horseshoe_lm_data y X a_sigma b_sigma A_tau A_lambda svdf)
            gn gg)^[burnin + (i + 1) * thinning]
          (fast_horseshoe_lm_init
            (fast_horseshoe_lm_data y X a_sigma b_sigma A_tau A_lambda svdf).p
            a_sigma b_sigma)).tau2) := by
  refine ⟨rfl, rfl, fun s => ?_, fun i hi => ?_, fun s => ?_, fun i hi => ?_⟩
  · rw [normalChainStep]
    split <;> rfl
  · have hlen : i < (runChain
        (normalChainStep (fast_normal_lm_data y X a_sigma b_sigma A_tau svdf) gn gg)
        burnin mcmc_sample thinning
        (fast_normal_lm_init a_sigma b_sigma A_tau)).2.length := by
      rw [runChain_length]; exact hi
    simp only [fast_normal_lm]
    rw [getD_map_lt _ _ i hlen 0
      (fast_normal_lm_init a_sigma b_sigma A_tau), runChain_getD _ _ _ _ _ i hi]
  · rw [hsChainStep]
    split <;> rfl
  · have hlen : i < (runChain
        (hsChainStep (fast_horseshoe_lm_data y X a_sigma b_sigma A_tau A_lambda svdf) gn gg)
        burnin mcmc_sample thinning
        (fast_horseshoe_lm_init
          (fast_horseshoe_lm_data y X a_sigma b_sigma A_tau A_lambda svdf).p
          a_sigma b_sigma)).2.length := by
      rw [runChain_length]; exact hi
    simp only [fast_horseshoe_lm]
    rw [getD_map_lt _ _ i hlen 0
      (fast_horseshoe_lm_init
        (fast_horseshoe_lm_data y X a_sigma b_sigma A_tau A_lambda svdf).p
        a_sigma b_sigma),
      runChain_getD _ _ _ _ _ i hi]

/-- Witness for C5: the first stored draw of a concrete one-draw run
is the `burnin + thinning`-fold iterate of the selected kernel. -/
theorem regime_selected_once_witness :
    (fast_normal_lm [1, 1] [[1], [1]] 1 1 1 0.01 0.01 10
        (fun _ => ([[1, 0], [0, 1]], [1, 1], [[1], [1]]))
        (fun _ => 1) (fun _ => 1)).mcmc_sigma2_eps.getD 0 0 =
      ((normalChainStep
          (fast_normal_lm_data [1, 1] [[1], [1]] 0.01 0.01 10
            (fun _ => ([[1, 0], [0, 1]], [1, 1], [[1], [1]])))
          (fun _ => 1) (fun _ => 1))^[1 + (0 + 1) * 1]
        (fast_normal_lm_init 0.01 0.01 10)).sigma2_eps :=
  ((regime_selected_once [1, 1] [[1], [1]] 1 1 1 0.01 0.01 10 1
      (fun _ => ([[1, 0], [0, 1]], [1, 1], [[1], [1]]))
      (fun _ => 1) (fun _ => 1)).2.2.2.1) 0 Nat.one_pos

/-! ## Horseshoe-prior logistic regression kernel (source lines 545–584) -/

/-- The state mutated by the Polya-Gamma augmented logistic horseshoe
kernels: coefficients, local and global shrinkage, the Polya-Gamma
weights `ω`, plus oracle stream positions. -/
structure LogitHsState where
  betacoef : List ℝ
  lambda : List ℝ
  b_lambda : List ℝ
  omega : List ℝ
  mu : List ℝ
  tau2 : ℝ
  b_tau : ℝ
  rngN : ℕ
  rngG : ℕ

/-- Embedding of `one_step_logit_horseshoe_big_n` (source lines
545–584), the observation-major kernel of `fast_horseshoe_logit`.
`pg` is the external Polya-Gamma sampler (`pgdraw(shape, rates)`). -/
def one_step_logit_horseshoe_big_n (Xty_s : List ℝ) (X : List (List ℝ))
    (A2_tau A2_lambda : ℝ) (p n : ℕ) (pg : ℝ → List ℝ → List ℝ)
    (gn gg : ℕ → ℝ) (s : LogitHsState) : LogitHsState :=
  let inv_tau2 := 1 / s.tau2
  let inv_lambda2 := s.lambda.map (fun l => 1 / (l * l))
  let OmegaX := List.zipWith (fun r w => r.map (fun v => v * w)) X s.omega
  let XtX := addDiag (matMul (transposeM X) OmegaX)
    (inv_lambda2.map (fun il => inv_tau2 * il))
  let R := chol XtX
  let bv := armaSolve (transposeM R) Xty_s
  let alpha := streamVec gn s.rngN p
  let betacoef := armaSolve R (vAdd alpha bv)
  let mu := matVec X betacoef
  let omega := pg 1 mu
  let betacoef2 := vHad betacoef betacoef
  let sum_beta2_inv_lambda2 := dotL betacoef2 inv_lambda2
  let inv_tau2_new := gg s.rngG
  let b_tau := gg (s.rngG + 1)
  let tau2 := 1 / inv_tau2_new
  let inv_lambda2_new := List.zipWith (fun g den => g / den)
    (streamVec gg (s.rngG + 2) p)
    (List.zipWith (fun bl b2 => bl + 0.5 * b2 / tau2) s.b_lambda betacoef2)
  let b_lambda := List.zipWith (fun g il => g / (1 / A2_lambda + il))
    (streamVec gg (s.rngG + 2 + p) p) inv_lambda2_new
  let lambda := inv_lambda2_new.map (fun t => Real.sqrt (1 / t))
  { betacoef := betacoef, lambda := lambda, b_lambda := b_lambda,
    omega := omega, mu := mu, tau2 := tau2, b_tau := b_tau,
    rngN := s.rngN + p, rngG := s.rngG + 2 + 2 * p }

/-! ## Horseshoe logistic kernels and entry point (source lines
545–801)

`one_step_logit_horseshoe_big_n` is defined further below together
with the positivity development; here are its data, its predictor-major
companion and the driver. -/

/-- The data fixed for one `fast_horseshoe_logit` run. -/
structure LogitHsData where
  y_s : List ℝ
  Xty_s : List ℝ
  X : List (List ℝ)
  A2_tau : ℝ
  A2_lambda : ℝ
  p : ℕ
  n : ℕ

/-- Embedding of `one_step_logit_horseshoe_big_p` (source lines
586–650), the predictor-major kernel of `fast_horseshoe_logit`. -/
def one_step_logit_horseshoe_big_p (dt : LogitHsData)
    (pg : ℝ → List ℝ → List ℝ) (gn gg : ℕ → ℝ) (s : LogitHsState) :
    LogitHsState :=
  let inv_omega := s.omega.map (fun w => 1 / w)
  let alpha1 := vHad (vScale (Real.sqrt s.tau2) (streamVec gn s.rngN dt.p))
    s.lambda
  let alpha2 := vHad (streamVec gn (s.rngN + dt.p) dt.n)
    (inv_omega.map Real.sqrt)
  let XLambda := dt.X.map (fun r => vHad r s.lambda)
  let Omega0 := addDiag (matMul XLambda (transposeM XLambda))
    (inv_omega.map (fun w => w / s.tau2))
  let beta_s := armaSolve Omega0
    (vSub (vSub (vHad dt.y_s inv_omega) (matVec dt.X alpha1)) alpha2)
  let betacoef := vAdd alpha1 (vHad s.lambda (matVec (transposeM XLambda) beta_s))
  let mu := matVec dt.X betacoef
  let omega := pg 1 mu
  let inv_lambda2 := s.lambda.map (fun l => 1 / (l * l))
  let betacoef2 := vHad betacoef betacoef
  let sum_beta2_inv_lambda2 := dotL betacoef2 inv_lambda2
  let inv_tau2 := gg s.rngG
  let b_tau := gg (s.rngG + 1)
  let tau2 := 1 / inv_tau2
  let inv_lambda2_new := List.zipWith (fun g den => g / den)
    (streamVec gg (s.rngG + 2) dt.p)
    (List.zipWith (fun bl b2 => bl + 0.5 * b2 / tau2) s.b_lambda betacoef2)
  let b_lambda := List.zipWith (fun g il => g / (1 / dt.A2_lambda + il))
    (streamVec gg (s.rngG + 2 + dt.p) dt.p) inv_lambda2_new
  let lambda := inv_lambda2_new.map (fun t => Real.sqrt (1 / t))
  { betacoef := betacoef, lambda := lambda, b_lambda := b_lambda,
    omega := omega, mu := mu, tau2 := tau2, b_tau := b_tau,
    rngN := s.rngN + dt.p + dt.n, rngG := s.rngG + 2 + 2 * dt.p }

/-- Result of a horseshoe logistic run.  As in the source (line 790),
`post_mean.lambda` carries the last iteration state of `λ`, not a
mean. -/
structure LogitHsResult where
  post_mean_betacoef : List ℝ
  post_mean_tau2 : ℝ
  post_mean_lambda : List ℝ
  post_mean_mu : List ℝ
  post_mean_prob : List ℝ
  mcmc_betacoef : List (List ℝ)
  mcmc_tau2 : List ℝ
  mcmc_lambda : List (List ℝ)

/-- The run-constant data of `fast_horseshoe_logit` (source lines
708–743). -/
def fast_horseshoe_logit_data (y : List ℝ) (X : List (List ℝ))
    (A_tau A_lambda : ℝ) : LogitHsData :=
  let y_s := vSub y (List.replicate X.length (0.5 : ℝ))
  { y_s := y_s, Xty_s := matVec (transposeM X) y_s, X := X,
    A2_tau := A_tau * A_tau, A2_lambda := A_lambda * A_lambda,
    p := (X.headD []).length, n := X.length }

/-- The initial kernel state of `fast_horseshoe_logit` (source lines
711–731 and 763): `b_τ = A_τ²`, `τ² = A_τ²` on the observation-major
branch and `1/p` on the predictor-major branch, `λ = b_λ = 1`,
`ω = pgdraw(1, zeros(n))`. -/
def fast_horseshoe_logit_init (p n : ℕ) (A_tau : ℝ)
    (pg : ℝ → List ℝ → List ℝ) : LogitHsState :=
  { betacoef := List.replicate p 0, lambda := List.replicate p 1,
    b_lambda := List.replicate p 1, omega := pg 1 (List.replicate n 0),
    mu := List.replicate n 0,
    tau2 := if p < n then A_tau * A_tau else 1 / (p : ℝ),
    b_tau := A_tau * A_tau, rngN := 0, rngG := 0 }

/-- The kernel variant `fast_horseshoe_logit` selects at
initialization (source line 742). -/
def logitHsChainStep (dt : LogitHsData) (pg : ℝ → List ℝ → List ℝ)
    (gn gg : ℕ → ℝ) : LogitHsState → LogitHsState :=
  if dt.p < dt.n then
    one_step_logit_horseshoe_big_n dt.Xty_s dt.X dt.A2_tau dt.A2_lambda
      dt.p dt.n pg gn gg
  else one_step_logit_horseshoe_big_p dt pg gn gg

/-- Embedding of `fast_horseshoe_logit` (source lines 699–801). -/
def fast_horseshoe_logit (y : List ℝ) (X : List (List ℝ))
    (mcmc_sample burnin thinning : ℕ) (A_tau A_lambda : ℝ)
    (pg : ℝ → List ℝ → List ℝ) (gn gg : ℕ → ℝ) : LogitHsResult :=
  let dt := fast_horseshoe_logit_data y X A_tau A_lambda
  let run := runChain (logitHsChainStep dt pg gn gg) burnin mcmc_sample
    thinning (fast_horseshoe_logit_init dt.p dt.n A_tau pg)
  let draws := run.2
  let bmean := colwiseMean (draws.map (fun s => s.betacoef)) dt.p
  let mu := matVec X bmean
  { post_mean_betacoef := bmean,
    post_mean_tau2 := meanR (draws.map (fun s => s.tau2)),
    post_mean_lambda := run.1.lambda,
    post_mean_mu := mu,
    post_mean_prob := mu.map (fun t => 1 / (1 + Real.exp (0 - t))),
    mcmc_betacoef := draws.map (fun s => s.betacoef),
    mcmc_tau2 := draws.map (fun s => s.tau2),
    mcmc_lambda := draws.map (fun s => s.lambda) }


/-! ## Positivity invariants (C4) -/

/-- All entries of a vector are strictly positive. -/
def posVec (v : List ℝ) : Prop := ∀ t ∈ v, 0 < t

/-- The positivity invariant of the logistic-horseshoe state:
`τ² > 0`, `b_τ > 0`, every `λ_j > 0`, every `ω_i > 0` and every
`b_λ_j > 0`. -/
def posStateL (s : LogitHsState) : Prop :=
  0 < s.tau2 ∧ 0 < s.b_tau ∧ posVec s.lambda ∧ posVec s.omega ∧ posVec s.b_lambda

lemma of_mem_zipWith {f : ℝ → ℝ → ℝ} :
    ∀ {l1 l2 : List ℝ} {c : ℝ}, c ∈ List.zipWith f l1 l2 →
      ∃ a ∈ l1, ∃ b ∈ l2, c = f a b := by
  intro l1
  induction l1 with
  | nil => intro l2 c h; simp at h
  | cons x xs ih =>
    intro l2 c h
    cases l2 with
    | nil => simp at h
    | cons y ys =>
      rcases List.mem_cons.1 h with h1 | h2
      · exact ⟨x, List.mem_cons_self x xs, y, List.mem_cons_self y ys, h1⟩
      · obtain ⟨a, ha, b, hb, hc⟩ := ih h2
        exact ⟨a, List.mem_cons_of_mem x ha, b, List.mem_cons_of_mem y hb, hc⟩

lemma of_mem_zipWith_self {f : ℝ → ℝ → ℝ} :
    ∀ {l : List ℝ} {c : ℝ}, c ∈ List.zipWith f l l → ∃ a ∈ l, c = f a a := by
  intro l
  induction l with
  | nil => intro c h; simp at h
  | cons x xs ih =>
    intro c h
    rcases List.mem_cons.1 h with h1 | h2
    · exact ⟨x, List.mem_cons_self x xs, h1⟩
    · obtain ⟨a, ha, hc⟩ := ih h2
      exact ⟨a, List.mem_cons_of_mem x ha, hc⟩

lemma mem_streamVec {g : ℕ → ℝ} {c k : ℕ} {t : ℝ} (h : t ∈ streamVec g c k) :
    ∃ j, t = g (c + j) := by
  simp only [streamVec, List.mem_map, List.mem_range] at h
  obtain ⟨j, _, hj⟩ := h
  exact ⟨j, hj.symm⟩

/-- Single-step positivity of the normal-model chain kernel: after one
application of either route, `σ²_ε`, `τ²` and `b_τ` are reciprocals or
direct values of gamma-stream draws, hence positive whenever every
gamma draw is. -/
lemma normalChainStep_pos (dt : LmData) (gn gg : ℕ → ℝ)
    (hgg : ∀ k, 0 < gg k) (s : LmState) :
    0 < (normalChainStep dt gn gg s).sigma2_eps ∧
    0 < (normalChainStep dt gn gg s).tau2 ∧
    0 < (normalChainStep dt gn gg s).b_tau := by
  rw [normalChainStep]
  split
  · exact ⟨one_div_pos.mpr (hgg _), one_div_pos.mpr (hgg _), hgg _⟩
  · exact ⟨one_div_pos.mpr (hgg _), one_div_pos.mpr (hgg _), hgg _⟩

lemma normalChainStep_iterate_pos (dt : LmData) (gn gg : ℕ → ℝ)
    (hgg : ∀ k, 0 < gg k) (k : ℕ) (hk : 1 ≤ k) (s : LmState) :
    0 < ((normalChainStep dt gn gg)^[k] s).sigma2_eps ∧
    0 < ((normalChainStep dt gn gg)^[k] s).tau2 := by
  obtain ⟨j, rfl⟩ := Nat.exists_eq_add_of_le hk
  rw [Function.iterate_add_apply]
  have h := normalChainStep_pos dt gn gg hgg ((normalChainStep dt gn gg)^[j] s)
  exact ⟨(by simpa using h.1), (by simpa using h.2.1)⟩

/-- Freshly drawn local-shrinkage precisions are positive: each entry
is a positive gamma draw divided by `b_λ_j + β_j²/(2τ²)` with
`b_λ_j > 0` and `τ² > 0`. -/
lemma posVec_new_inv_lambda2 {gg : ℕ → ℝ} {c p : ℕ} {bl beta : List ℝ} {tau2 : ℝ}
    (hgg : ∀ k, 0 < gg k) (hbl : posVec bl) (htau : 0 < tau2) :
    posVec (List.zipWith (fun g den => g / den) (streamVec gg c p)
      (List.zipWith (fun b b2 => b + 0.5 * b2 / tau2) bl (vHad beta beta))) := by
  intro t ht
  obtain ⟨g, hg, den, hden, rfl⟩ := of_mem_zipWith ht
  obtain ⟨j, rfl⟩ := mem_streamVec hg
  obtain ⟨b, hb, b2, hb2, rfl⟩ := of_mem_zipWith hden
  obtain ⟨a, _, rfl⟩ := of_mem_zipWith_self hb2
  refine div_pos (hgg _) ?_
  have hnn : (0 : ℝ) ≤ 0.5 * (a * a) / tau2 :=
    div_nonneg (mul_nonneg (by norm_num) (mul_self_nonneg a)) htau.le
  exact add_pos_of_pos_of_nonneg (hbl b hb) hnn

/-- The positivity invariant of the horseshoe linear-model state. -/
def posStateHs (s : HsState) : Prop :=
  0 < s.sigma2_eps ∧ 0 < s.tau2 ∧ 0 < s.b_tau ∧ posVec s.lambda ∧ posVec s.b_lambda

/-- The positivity invariant of the normal-prior logistic state. -/
def posStateLogitN (s : LogitState) : Prop :=
  0 < s.tau2 ∧ 0 < s.b_tau ∧ posVec s.omega

lemma iterate_inv {σ : Type} (f : σ → σ) (P : σ → Prop)
    (h : ∀ s, P s → P (f s)) : ∀ (k : ℕ) (s : σ), P s → P (f^[k] s) := by
  intro k
  induction k with
  | zero => intro s hs; simpa using hs
  | succ j ih =>
    intro s hs
    rw [Function.iterate_succ_apply']
    exact h _ (ih s hs)

lemma iterate_inv_bounded {σ : Type} (f : σ → σ) (P Q : σ → Prop)
    (h : ∀ s, P s → Q s → P (f s)) :
    ∀ (k : ℕ) (s : σ), P s → (∀ j, j < k → Q (f^[j] s)) → P (f^[k] s) := by
  intro k
  induction k with
  | zero => intro s hs _; simpa using hs
  | succ j ih =>
    intro s hs hQ
    rw [Function.iterate_succ_apply']
    exact h _ (ih s hs (fun i hi => hQ i (Nat.lt_succ_of_lt hi)))
      (hQ j (Nat.lt_succ_self j))

lemma iterate_fresh {σ : Type} (f : σ → σ) (P : σ → Prop)
    (h : ∀ s, P (f s)) (k : ℕ) (hk : 1 ≤ k) (s : σ) : P (f^[k] s) := by
  obtain ⟨j, rfl⟩ := Nat.exists_eq_add_of_le hk
  rw [Function.iterate_add_apply]
  simpa using h (f^[j] s)

/-- Freshly drawn horseshoe local-shrinkage precisions (linear-model
form, denominator `b_λ_j + β_j²/(2τ²σ²)`) are positive. -/
lemma posVec_hs_inv_lambda2 {gg : ℕ → ℝ} {c p : ℕ} {bl beta : List ℝ}
    {tau2 sig2 : ℝ} (hgg : ∀ k, 0 < gg k) (hbl : posVec bl)
    (htau : 0 < tau2) (hsig : 0 < sig2) :
    posVec (List.zipWith (fun g den => g / den) (streamVec gg c p)
      (List.zipWith (fun b b2 => b + 0.5 * b2 / tau2 / sig2) bl (vHad beta beta))) := by
  intro t ht
  obtain ⟨g, hg, den, hden, rfl⟩ := of_mem_zipWith ht
  obtain ⟨j, rfl⟩ := mem_streamVec hg
  obtain ⟨b, hb, b2, hb2, rfl⟩ := of_mem_zipWith hden
  obtain ⟨a, _, rfl⟩ := of_mem_zipWith_self hb2
  refine div_pos (hgg _) (add_pos_of_pos_of_nonneg (hbl b hb) ?_)
  exact div_nonneg (div_nonneg
    (mul_nonneg (by norm_num) (mul_self_nonneg a)) htau.le) hsig.le

/-- The rate auxiliaries `b_λ` drawn against positive precisions are
positive. -/
lemma posVec_b_lambda_draw {gg : ℕ → ℝ} {c p : ℕ} {A2l : ℝ} {il : List ℝ}
    (hgg : ∀ k, 0 < gg k) (hA2 : 0 < A2l) (hil : posVec il) :
    posVec (List.zipWith (fun g i => g / (1 / A2l + i)) (streamVec gg c p) il) := by
  intro t ht
  obtain ⟨g, hg, i, hi, rfl⟩ := of_mem_zipWith ht
  obtain ⟨j, rfl⟩ := mem_streamVec hg
  exact div_pos (hgg _) (add_pos (one_div_pos.mpr hA2) (hil i hi))

lemma posVec_sqrt_inv {il : List ℝ} (hil : posVec il) :
    posVec (il.map (fun t => Real.sqrt (1 / t))) := by
  intro t ht
  obtain ⟨a, ha, rfl⟩ := List.mem_map.1 ht
  exact Real.sqrt_pos.mpr (one_div_pos.mpr (hil a ha))

/-- `hs_one_step_update_big_n` preserves the positivity invariant. -/
lemma hs_big_n_step_pos (dt : HsData) (gn gg : ℕ → ℝ)
    (hgg : ∀ k, 0 < gg k) (hA2 : 0 < dt.A2_lambda) (s : HsState)
    (hs : posStateHs s) : posStateHs (hs_one_step_update_big_n dt gn gg s) := by
  obtain ⟨hsig, htau, hbtau, hlam, hblam⟩ := hs
  simp only [hs_one_step_update_big_n, posStateHs]
  exact ⟨one_div_pos.mpr (hgg _), one_div_pos.mpr (hgg _), hgg _,
    posVec_sqrt_inv (posVec_hs_inv_lambda2 hgg hblam htau hsig),
    posVec_b_lambda_draw hgg hA2 (posVec_hs_inv_lambda2 hgg hblam htau hsig)⟩

/-- `hs_one_step_update_big_p` preserves the positivity invariant. -/
lemma hs_big_p_step_pos (dt : HsData) (gn gg : ℕ → ℝ)
    (hgg : ∀ k, 0 < gg k) (hA2 : 0 < dt.A2_lambda) (s : HsState)
    (hs : posStateHs s) : posStateHs (hs_one_step_update_big_p dt gn gg s) := by
  obtain ⟨hsig, htau, hbtau, hlam, hblam⟩ := hs
  simp only [hs_one_step_update_big_p, posStateHs]
  exact ⟨one_div_pos.mpr (hgg _), one_div_pos.mpr (hgg _), hgg _,
    posVec_sqrt_inv (posVec_hs_inv_lambda2 hgg hblam htau hsig),
    posVec_b_lambda_draw hgg hA2 (posVec_hs_inv_lambda2 hgg hblam htau hsig)⟩

/-- `hs_one_step_update` preserves the positivity invariant. -/
lemma hs_update_step_pos (dt : HsData) (gn gg : ℕ → ℝ)
    (hgg : ∀ k, 0 < gg k) (hA2 : 0 < dt.A2_lambda) (s : HsState)
    (hs : posStateHs s) : posStateHs (hs_one_step_update dt gn gg s) := by
  obtain ⟨hsig, htau, hbtau, hlam, hblam⟩ := hs
  simp only [hs_one_step_update, posStateHs]
  exact ⟨one_div_pos.mpr (hgg _), one_div_pos.mpr (hgg _), hgg _,
    posVec_sqrt_inv (posVec_hs_inv_lambda2 hgg hblam htau hsig),
    posVec_b_lambda_draw hgg hA2 (posVec_hs_inv_lambda2 hgg hblam htau hsig)⟩

/-- `hs_one_step_update_slice_sampler` preserves the positivity
invariant once the two inverse-CDF gamma draws it performs are
positive (the claim assumption for this kernel) and the uniform
variates are positive. -/
lemma hs_slice_step_pos (dt : HsData) (gn gu gg : ℕ → ℝ)
    (pgam qgam : ℝ → ℝ → ℝ → ℝ)
    (hgg : ∀ k, 0 < gg k) (hgu : ∀ k, 0 < gu k)
    (hA2t : 0 < dt.A2) (hA2l : 0 < dt.A2_lambda) (s : HsState)
    (hs : posStateHs s)
    (hql : posVec (slice_inv_lambda2 dt gn gu s))
    (hqt : 0 < slice_inv_tau2 dt gn gu pgam qgam s) :
    posStateHs (hs_one_step_update_slice_sampler dt gn gu gg pgam qgam s) := by
  obtain ⟨hsig, htau, hbtau, hlam, hblam⟩ := hs
  simp only [hs_one_step_update_slice_sampler, posStateHs]
  refine ⟨one_div_pos.mpr (hgg _), one_div_pos.mpr hqt, ?_, posVec_sqrt_inv hql, ?_⟩
  · refine mul_pos (hgu _) (div_pos hA2t ?_)
    exact add_pos_of_pos_of_nonneg one_pos
      (mul_nonneg hA2t.le (one_div_pos.mpr htau).le)
  · intro t ht
    obtain ⟨g, hg, w, hw, rfl⟩ := of_mem_zipWith ht
    obtain ⟨j, rfl⟩ := mem_streamVec hg
    obtain ⟨l, hl, rfl⟩ := List.mem_map.1 hw
    have hl0 := hlam l hl
    refine mul_pos (hgu _) (div_pos hA2l ?_)
    exact add_pos_of_pos_of_nonneg one_pos
      (mul_nonneg hA2l.le (one_div_pos.mpr (mul_pos hl0 hl0)).le)

/-- `one_step_logit_normal_big_n` refreshes `τ²`, `b_τ` and `ω`
directly from positive variates. -/
lemma logit_normal_big_n_step_pos (dt : LogitData) (pg : ℝ → List ℝ → List ℝ)
    (gn gg : ℕ → ℝ) (hgg : ∀ k, 0 < gg k)
    (hpg : ∀ sh v, ∀ w ∈ pg sh v, 0 < w) (s : LogitState) :
    posStateLogitN (one_step_logit_normal_big_n dt pg gn gg s) := by
  simp only [one_step_logit_normal_big_n, posStateLogitN]
  exact ⟨one_div_pos.mpr (hgg _), hgg _, fun t ht => hpg 1 _ t ht⟩

/-- `one_step_logit_normal_big_p` refreshes `τ²`, `b_τ` and `ω`
directly from positive variates. -/
lemma logit_normal_big_p_step_pos (dt : LogitData) (pg : ℝ → List ℝ → List ℝ)
    (gn gg : ℕ → ℝ) (hgg : ∀ k, 0 < gg k)
    (hpg : ∀ sh v, ∀ w ∈ pg sh v, 0 < w) (s : LogitState) :
    posStateLogitN (one_step_logit_normal_big_p dt pg gn gg s) := by
  simp only [one_step_logit_normal_big_p, posStateLogitN]
  exact ⟨one_div_pos.mpr (hgg _), hgg _, fun t ht => hpg 1 _ t ht⟩

/-- `one_step_logit_horseshoe_big_n` preserves the positivity
invariant. -/
lemma logit_hs_big_n_step_pos (Xty_s : List ℝ) (X : List (List ℝ))
    (A2_tau A2_lambda : ℝ) (p n : ℕ) (pg : ℝ → List ℝ → List ℝ)
    (gn gg : ℕ → ℝ) (hgg : ∀ k, 0 < gg k)
    (hpg : ∀ sh v, ∀ w ∈ pg sh v, 0 < w) (hA2 : 0 < A2_lambda)
    (s : LogitHsState) (hs : posStateL s) :
    posStateL (one_step_logit_horseshoe_big_n Xty_s X A2_tau A2_lambda p n
      pg gn gg s) := by
  obtain ⟨htau, hbtau, hlam, homega, hblam⟩ := hs
  simp only [one_step_logit_horseshoe_big_n, posStateL]
  have htau2 : (0 : ℝ) < 1 / gg s.rngG := one_div_pos.mpr (hgg _)
  exact ⟨htau2, hgg _,
    posVec_sqrt_inv (posVec_new_inv_lambda2 hgg hblam htau2),
    fun t ht => hpg 1 _ t ht,
    posVec_b_lambda_draw hgg hA2 (posVec_new_inv_lambda2 hgg hblam htau2)⟩

/-- `one_step_logit_horseshoe_big_p` preserves the positivity
invariant. -/
lemma logit_hs_big_p_step_pos (dt : LogitHsData) (pg : ℝ → List ℝ → List ℝ)
    (gn gg : ℕ → ℝ) (hgg : ∀ k, 0 < gg k)
    (hpg : ∀ sh v, ∀ w ∈ pg sh v, 0 < w) (hA2 : 0 < dt.A2_lambda)
    (s : LogitHsState) (hs : posStateL s) :
    posStateL (one_step_logit_horseshoe_big_p dt pg gn gg s) := by
  obtain ⟨htau, hbtau, hlam, homega, hblam⟩ := hs
  simp only [one_step_logit_horseshoe_big_p, posStateL]
  have htau2 : (0 : ℝ) < 1 / gg s.rngG := one_div_pos.mpr (hgg _)
  exact ⟨htau2, hgg _,
    posVec_sqrt_inv (posVec_new_inv_lambda2 hgg hblam htau2),
    fun t ht => hpg 1 _ t ht,
    posVec_b_lambda_draw hgg hA2 (posVec_new_inv_lambda2 hgg hblam htau2)⟩

lemma posVec_replicate_one {p : ℕ} : posVec (List.replicate p (1 : ℝ)) := by
  intro t ht
  rw [List.eq_of_mem_replicate ht]
  exact one_pos

/-- The `fast_horseshoe_lm` initial state satisfies the invariant for
nonnegative noise hyperparameters and a nonempty design. -/
lemma fast_horseshoe_lm_init_pos (p : ℕ) (a_sigma b_sigma : ℝ)
    (hp : 1 ≤ p) (ha : 0 ≤ a_sigma) (hb : a_sigma ≠ 0 → 0 < b_sigma) :
    posStateHs (fast_horseshoe_lm_init p a_sigma b_sigma) := by
  simp only [fast_horseshoe_lm_init, posStateHs]
  refine ⟨?_, one_div_pos.mpr (Nat.cast_pos.mpr hp), one_pos,
    posVec_replicate_one, posVec_replicate_one⟩
  split
  · rename_i h
    exact div_pos (hb h) (lt_of_le_of_ne ha (Ne.symm h))
  · exact one_pos

/-- The `fast_horseshoe_ss_lm` initial state satisfies the invariant. -/
lemma fast_horseshoe_ss_lm_init_pos (p : ℕ) (a_sigma b_sigma : ℝ)
    (hp : 1 ≤ p) (ha : 0 ≤ a_sigma) (hb : a_sigma ≠ 0 → 0 < b_sigma) :
    posStateHs (fast_horseshoe_ss_lm_init p a_sigma b_sigma) := by
  simp only [fast_horseshoe_ss_lm_init, posStateHs]
  refine ⟨?_, one_div_pos.mpr (Nat.cast_pos.mpr hp), one_pos,
    posVec_replicate_one, posVec_replicate_one⟩
  split
  · rename_i h
    exact div_pos (hb h) (lt_of_le_of_ne ha (Ne.symm h))
  · exact one_pos

/-- The `fast_horseshoe_hd_lm` initial state satisfies the invariant. -/
lemma fast_horseshoe_hd_lm_init_pos (p : ℕ) (a_sigma b_sigma : ℝ)
    (hp : 1 ≤ p) (ha : 0 ≤ a_sigma) (hb : a_sigma ≠ 0 → 0 < b_sigma) :
    posStateHs (fast_horseshoe_hd_lm_init p a_sigma b_sigma) := by
  simp only [fast_horseshoe_hd_lm_init, posStateHs]
  refine ⟨?_, one_div_pos.mpr (Nat.cast_pos.mpr hp), one_pos,
    posVec_replicate_one, posVec_replicate_one⟩
  split
  · rename_i h
    exact div_pos (hb h) (lt_of_le_of_ne ha (Ne.symm h))
  · exact one_pos

/-- The `fast_horseshoe_logit` initial state satisfies the invariant
when `A_τ ≠ 0`, the design is nonempty and the Polya-Gamma sampler
returns positive weights. -/
lemma fast_horseshoe_logit_init_pos (p n : ℕ) (A_tau : ℝ)
    (pg : ℝ → List ℝ → List ℝ) (hp : 1 ≤ p) (hA : A_tau ≠ 0)
    (hpg : ∀ sh v, ∀ w ∈ pg sh v, 0 < w) :
    posStateL (fast_horseshoe_logit_init p n A_tau pg) := by
  simp only [fast_horseshoe_logit_init, posStateL]
  refine ⟨?_, mul_self_pos.mpr hA, posVec_replicate_one,
    fun t ht => hpg 1 _ t ht, posVec_replicate_one⟩
  split
  · exact mul_self_pos.mpr hA
  · exact one_div_pos.mpr (Nat.cast_pos.mpr hp)

/-- C4: positivity invariants across the engine.  Kernels: each of the
ten one-step update kernels preserves the positivity invariant of its
state (`σ²_ε > 0`, `τ² > 0`, `b_τ > 0`, every `λ_j > 0`, every
`ω_i > 0`, every `b_λ_j > 0`, as applicable to that kernel), assuming
every gamma variate drawn is strictly positive — for the slice-sampler
kernel these are its two inverse-CDF gamma draws — and every
Polya-Gamma and uniform variate is strictly positive.  Runs: in each
of the six fitting entry points, under the same assumptions (plus
positive half-Cauchy scales, nonnegative noise hyperparameters and a
nonempty design where initialization uses them), every collected draw
satisfies the invariant, including `ω` for the logistic chains via the
chain state at each collection point. -/
theorem positivity_invariants :
    (∀ (dt : LmData) (gn gg : ℕ → ℝ) (s : LmState), (∀ k, 0 < gg k) →
      0 < (one_step_update_big_n dt gn gg s).1.sigma2_eps ∧
      0 < (one_step_update_big_n dt gn gg s).1.tau2 ∧
      0 < (one_step_update_big_n dt gn gg s).1.b_tau) ∧
    (∀ (dt : LmData) (gn gg : ℕ → ℝ) (s : LmState), (∀ k, 0 < gg k) →
      0 < (one_step_update_big_p dt gn gg s).1.sigma2_eps ∧
      0 < (one_step_update_big_p dt gn gg s).1.tau2 ∧
      0 < (one_step_update_big_p dt gn gg s).1.b_tau) ∧
    (∀ (dt : HsData) (gn gg : ℕ → ℝ) (s : HsState), (∀ k, 0 < gg k) →
      0 < dt.A2_lambda → posStateHs s →
      posStateHs (hs_one_step_update_big_n dt gn gg s)) ∧
    (∀ (dt : HsData) (gn gg : ℕ → ℝ) (s : HsState), (∀ k, 0 < gg k) →
      0 < dt.A2_lambda → posStateHs s →
      posStateHs (hs_one_step_update_big_p dt gn gg s)) ∧
    (∀ (dt : HsData) (gn gg : ℕ → ℝ) (s : HsState), (∀ k, 0 < gg k) →
      0 < dt.A2_lambda → posStateHs s →
      posStateHs (hs_one_step_update dt gn gg s)) ∧
    (∀ (dt : HsData) (gn gu gg : ℕ → ℝ) (pgam qgam : ℝ → ℝ → ℝ → ℝ)
      (s : HsState), (∀ k, 0 < gg k) → (∀ k, 0 < gu k) → 0 < dt.A2 →
      0 < dt.A2_lambda → posVec (slice_inv_lambda2 dt gn gu s) →
      0 < slice_inv_tau2 dt gn gu pgam qgam s → posStateHs s →
      posStateHs (hs_one_step_update_slice_sampler dt gn gu gg pgam qgam s)) ∧
    (∀ (dt : LogitData) (pg : ℝ → List ℝ → List ℝ) (gn gg : ℕ → ℝ)
      (s : LogitState), (∀ k, 0 < gg k) → (∀ sh v, ∀ w ∈ pg sh v, 0 < w) →
      posStateLogitN (one_step_logit_normal_big_n dt pg gn gg s)) ∧
    (∀ (dt : LogitData) (pg : ℝ → List ℝ → List ℝ) (gn gg : ℕ → ℝ)
      (s : LogitState), (∀ k, 0 < gg k) → (∀ sh v, ∀ w ∈ pg sh v, 0 < w) →
      posStateLogitN (one_step_logit_normal_big_p dt pg gn gg s)) ∧
    (∀ (Xty_s : List ℝ) (X : List (List ℝ)) (A2_tau A2_lambda : ℝ) (p n : ℕ)
      (pg : ℝ → List ℝ → List ℝ) (gn gg : ℕ → ℝ) (s : LogitHsState),
      (∀ k, 0 < gg k) → (∀ sh v, ∀ w ∈ pg sh v, 0 < w) → 0 < A2_lambda →
      posStateL s →
      posStateL (one_step_logit_horseshoe_big_n Xty_s X A2_tau A2_lambda p n
        pg gn gg s)) ∧
    (∀ (dt : LogitHsData) (pg : ℝ → List ℝ → List ℝ) (gn gg : ℕ → ℝ)
      (s : LogitHsState), (∀ k, 0 < gg k) →
      (∀ sh v, ∀ w ∈ pg sh v, 0 < w) → 0 < dt.A2_lambda → posStateL s →
      posStateL (one_step_logit_horseshoe_big_p dt pg gn gg s)) ∧
    (∀ (y : List ℝ) (X : List (List ℝ)) (mcmc_sample burnin thinning : ℕ)
      (a_sigma b_sigma A_tau : ℝ)
      (svdf : List (List ℝ) → List (List ℝ) × List ℝ × List (List ℝ))
      (gn gg : ℕ → ℝ), (∀ k, 0 < gg k) → 1 ≤ thinning →
      ∀ i, i < mcmc_sample →
        0 < (fast_normal_lm y X mcmc_sample burnin thinning a_sigma b_sigma A_tau
              svdf gn gg).mcmc_sigma2_eps.getD i 0 ∧
        0 < (fast_normal_lm y X mcmc_sample burnin thinning a_sigma b_sigma A_tau
              svdf gn gg).mcmc_tau2.getD i 0) ∧
    (∀ (y : List ℝ) (X : List (List ℝ)) (mcmc_sample burnin thinning : ℕ)
      (a_sigma b_sigma A_tau A_lambda : ℝ)
      (svdf : List (List ℝ) → List (List ℝ) × List ℝ × List (List ℝ))
      (gn gg : ℕ → ℝ), (∀ k, 0 < gg k) → A_lambda ≠ 0 → 0 ≤ a_sigma →
      (a_sigma ≠ 0 → 0 < b_sigma) → 1 ≤ (X.headD []).length →
      ∀ i, i < mcmc_sample →
        0 < (fast_horseshoe_lm y X mcmc_sample burnin thinning a_sigma b_sigma
              A_tau A_lambda svdf gn gg).mcmc_sigma2_eps.getD i 0 ∧
        0 < (fast_horseshoe_lm y X mcmc_sample burnin thinning a_sigma b_sigma
              A_tau A_lambda svdf gn gg).mcmc_tau2.getD i 0 ∧
        posVec ((fast_horseshoe_lm y X mcmc_sample burnin thinning a_sigma b_sigma
              A_tau A_lambda svdf gn gg).mcmc_lambda.getD i [])) ∧
    (∀ (y : List ℝ) (X : List (List ℝ)) (mcmc_sample burnin thinning : ℕ)
      (a_sigma b_sigma A_tau A_lambda : ℝ)
      (svdf : List (List ℝ) → List (List ℝ) × List ℝ × List (List ℝ))
      (gn gg : ℕ → ℝ), (∀ k, 0 < gg k) → A_lambda ≠ 0 → 0 ≤ a_sigma →
      (a_sigma ≠ 0 → 0 < b_sigma) → 1 ≤ (X.headD []).length →
      ∀ i, i < mcmc_sample →
        0 < (fast_horseshoe_hd_lm y X mcmc_sample burnin thinning a_sigma b_sigma
              A_tau A_lambda svdf gn gg).mcmc_sigma2_eps.getD i 0 ∧
        0 < (fast_horseshoe_hd_lm y X mcmc_sample burnin thinning a_sigma b_sigma
              A_tau A_lambda svdf gn gg).mcmc_tau2.getD i 0 ∧
        posVec ((fast_horseshoe_hd_lm y X mcmc_sample burnin thinning a_sigma b_sigma
              A_tau A_lambda svdf gn gg).mcmc_lambda.getD i [])) ∧
    (∀ (y : List ℝ) (X : List (List ℝ)) (mcmc_sample burnin thinning : ℕ)
      (a_sigma b_sigma A_tau A_lambda : ℝ)
      (svdf : List (List ℝ) → List (List ℝ) × List ℝ × List (List ℝ))
      (gn gu gg : ℕ → ℝ) (pgam qgam : ℝ → ℝ → ℝ → ℝ),
      (∀ k, 0 < gg k) → (∀ k, 0 < gu k) → A_tau ≠ 0 → A_lambda ≠ 0 →
      0 ≤ a_sigma → (a_sigma ≠ 0 → 0 < b_sigma) → 1 ≤ (X.headD []).length →
      (∀ j, j < burnin + mcmc_sample * thinning →
        posVec (slice_inv_lambda2
          (fast_horseshoe_lm_data y X a_sigma b_sigma A_tau A_lambda svdf) gn gu
          ((ssChainStep (fast_horseshoe_lm_data y X a_sigma b_sigma A_tau A_lambda svdf)
              gn gu gg pgam qgam)^[j]
            (fast_horseshoe_ss_lm_init
              (fast_horseshoe_lm_data y X a_sigma b_sigma A_tau A_lambda svdf).p
              a_sigma b_sigma))) ∧
        0 < slice_inv_tau2
          (fast_horseshoe_lm_data y X a_sigma b_sigma A_tau A_lambda svdf) gn gu
          pgam qgam
          ((ssChainStep (fast_horseshoe_lm_data y X a_sigma b_sigma A_tau A_lambda svdf)
              gn gu gg pgam qgam)^[j]
            (fast_horseshoe_ss_lm_init
              (fast_horseshoe_lm_data y X a_sigma b_sigma A_tau A_lambda svdf).p
              a_sigma b_sigma))) →
      ∀ i, i < mcmc_sample →
        0 < (fast_horseshoe_ss_lm y X mcmc_sample burnin thinning a_sigma b_sigma
              A_tau A_lambda svdf gn gu gg pgam qgam).mcmc_sigma2_eps.getD i 0 ∧
        0 < (fast_horseshoe_ss_lm y X mcmc_sample burnin thinning a_sigma b_sigma
              A_tau A_lambda svdf gn gu gg pgam qgam).mcmc_tau2.getD i 0 ∧
        posVec ((fast_horseshoe_ss_lm y X mcmc_sample burnin thinning a_sigma b_sigma
              A_tau A_lambda svdf gn gu gg pgam qgam).mcmc_lambda.getD i [])) ∧
    (∀ (y : List ℝ) (X : List (List ℝ)) (mcmc_sample burnin thinning : ℕ)
      (A_tau : ℝ) (pg : ℝ → List ℝ → List ℝ) (gn gg : ℕ → ℝ),
      (∀ k, 0 < gg k) → (∀ sh v, ∀ w ∈ pg sh v, 0 < w) → 1 ≤ thinning →
      ∀ i, i < mcmc_sample →
        0 < (fast_normal_logit y X mcmc_sample burnin thinning A_tau pg
              gn gg).mcmc_tau2.getD i 0 ∧
        posStateLogitN ((normalLogitChainStep (fast_normal_logit_data y X A_tau)
            pg gn gg)^[burnin + (i + 1) * thinning]
          (fast_normal_logit_init (fast_normal_logit_data y X A_tau).p
            (fast_normal_logit_data y X A_tau).n A_tau pg))) ∧
    (∀ (y : List ℝ) (X : List (List ℝ)) (mcmc_sample burnin thinning : ℕ)
      (A_tau A_lambda : ℝ) (pg : ℝ → List ℝ → List ℝ) (gn gg : ℕ → ℝ),
      (∀ k, 0 < gg k) → (∀ sh v, ∀ w ∈ pg sh v, 0 < w) → A_tau ≠ 0 →
      A_lambda ≠ 0 → 1 ≤ (X.headD []).length →
      ∀ i, i < mcmc_sample →
        0 < (fast_horseshoe_logit y X mcmc_sample burnin thinning A_tau A_lambda
              pg gn gg).mcmc_tau2.getD i 0 ∧
        posVec ((fast_horseshoe_logit y X mcmc_sample burnin thinning A_tau A_lambda
              pg gn gg).mcmc_lambda.getD i []) ∧
        posStateL ((logitHsChainStep (fast_horseshoe_logit_data y X A_tau A_lambda)
            pg gn gg)^[burnin + (i + 1) * thinning]
          (fast_horseshoe_logit_init (fast_horseshoe_logit_data y X A_tau A_lambda).p
            (fast_horseshoe_logit_data y X A_tau A_lambda).n A_tau pg))) := by
  refine ⟨?_, ?_, ?_, ?_, ?_, ?_, ?_, ?_, ?_, ?_, ?_, ?_, ?_, ?_, ?_, ?_⟩
  · intro dt gn gg s hgg
    simp only [one_step_update_big_n]
    exact ⟨one_div_pos.mpr (hgg _), one_div_pos.mpr (hgg _), hgg _⟩
  · intro dt gn gg s hgg
    simp only [one_step_update_big_p]
    exact ⟨one_div_pos.mpr (hgg _), one_div_pos.mpr (hgg _), hgg _⟩
  · intro dt gn gg s hgg hA2 hs
    exact hs_big_n_step_pos dt gn gg hgg hA2 s hs
  · intro dt gn gg s hgg hA2 hs
    exact hs_big_p_step_pos dt gn gg hgg hA2 s hs
  · intro dt gn gg s hgg hA2 hs
    exact hs_update_step_pos dt gn gg hgg hA2 s hs
  · intro dt gn gu gg pgam qgam s hgg hgu hA2t hA2l hql hqt hs
    exact hs_slice_step_pos dt gn gu gg pgam qgam hgg hgu hA2t hA2l s hs hql hqt
  · intro dt pg gn gg s hgg hpg
    exact logit_normal_big_n_step_pos dt pg gn gg hgg hpg s
  · intro dt pg gn gg s hgg hpg
    exact logit_normal_big_p_step_pos dt pg gn gg hgg hpg s
  · intro Xty_s X A2_tau A2_lambda p n pg gn gg s hgg hpg hA2 hs
    exact logit_hs_big_n_step_pos Xty_s X A2_tau A2_lambda p n pg gn gg
      hgg hpg hA2 s hs
  · intro dt pg gn gg s hgg hpg hA2 hs
    exact logit_hs_big_p_step_pos dt pg gn gg hgg hpg hA2 s hs
  · intro y X mcmc_sample burnin thinning a_sigma b_sigma A_tau svdf gn gg
      hgg hthin i hi
    have hlen : i < (runChain
        (normalChainStep (fast_normal_lm_data y X a_sigma b_sigma A_tau svdf) gn gg)
        burnin mcmc_sample thinning
        (fast_normal_lm_init a_sigma b_sigma A_tau)).2.length := by
      rw [runChain_length]; exact hi
    have hk : 1 ≤ burnin + (i + 1) * thinning :=
      le_trans (Nat.mul_pos (Nat.succ_pos i) hthin) (Nat.le_add_left _ _)
    constructor
    · show 0 < (fast_normal_lm y X mcmc_sample burnin thinning a_sigma b_sigma
        A_tau svdf gn gg).mcmc_sigma2_eps.getD i 0
      simp only [fast_normal_lm]
      rw [getD_map_lt _ _ i hlen 0 (fast_normal_lm_init a_sigma b_sigma A_tau),
        runChain_getD _ _ _ _ _ i hi]
      exact (normalChainStep_iterate_pos _ gn gg hgg _ hk _).1
    · show 0 < (fast_normal_lm y X mcmc_sample burnin thinning a_sigma b_sigma
        A_tau svdf gn gg).mcmc_tau2.getD i 0
      simp only [fast_normal_lm]
      rw [getD_map_lt _ _ i hlen 0 (fast_normal_lm_init a_sigma b_sigma A_tau),
        runChain_getD _ _ _ _ _ i hi]
      exact (normalChainStep_iterate_pos _ gn gg hgg _ hk _).2
  · intro y X mcmc_sample burnin thinning a_sigma b_sigma A_tau A_lambda svdf
      gn gg hgg hA ha hb hp i hi
    have hA2 : (0 : ℝ) < (fast_horseshoe_lm_data y X a_sigma b_sigma A_tau
        A_lambda svdf).A2_lambda := mul_self_pos.mpr hA
    have hstep : ∀ s, posStateHs s → posStateHs
        (hsChainStep (fast_horseshoe_lm_data y X a_sigma b_sigma A_tau A_lambda svdf)
          gn gg s) := by
      intro s hs
      by_cases hc : (fast_horseshoe_lm_data y X a_sigma b_sigma A_tau A_lambda svdf).p <
          (fast_horseshoe_lm_data y X a_sigma b_sigma A_tau A_lambda svdf).n
      · rw [hsChainStep, if_pos hc]
        exact hs_big_n_step_pos _ gn gg hgg hA2 s hs
      · rw [hsChainStep, if_neg hc]
        exact hs_big_p_step_pos _ gn gg hgg hA2 s hs
    have hinv := iterate_inv _ _ hstep (burnin + (i + 1) * thinning)
      (fast_horseshoe_lm_init
        (fast_horseshoe_lm_data y X a_sigma b_sigma A_tau A_lambda svdf).p
        a_sigma b_sigma)
      (fast_horseshoe_lm_init_pos _ a_sigma b_sigma hp ha hb)
    have hlen : i < (runChain
        (hsChainStep (fast_horseshoe_lm_data y X a_sigma b_sigma A_tau A_lambda svdf)
          gn gg) burnin mcmc_sample thinning
        (fast_horseshoe_lm_init
          (fast_horseshoe_lm_data y X a_sigma b_sigma A_tau A_lambda svdf).p
          a_sigma b_sigma)).2.length := by
      rw [runChain_length]; exact hi
    refine ⟨?_, ?_, ?_⟩
    · show 0 < (fast_horseshoe_lm y X mcmc_sample burnin thinning a_sigma b_sigma
        A_tau A_lambda svdf gn gg).mcmc_sigma2_eps.getD i 0
      simp only [fast_horseshoe_lm]
      rw [getD_map_lt _ _ i hlen 0 (fast_horseshoe_lm_init
          (fast_horseshoe_lm_data y X a_sigma b_sigma A_tau A_lambda svdf).p
          a_sigma b_sigma),
        runChain_getD _ _ _ _ _ i hi]
      exact hinv.1
    · show 0 < (fast_horseshoe_lm y X mcmc_sample burnin thinning a_sigma b_sigma
        A_tau A_lambda svdf gn gg).mcmc_tau2.getD i 0
      simp only [fast_horseshoe_lm]
      rw [getD_map_lt _ _ i hlen 0 (fast_horseshoe_lm_init
          (fast_horseshoe_lm_data y X a_sigma b_sigma A_tau A_lambda svdf).p
          a_sigma b_sigma),
        runChain_getD _ _ _ _ _ i hi]
      exact hinv.2.1
    · show posVec ((fast_horseshoe_lm y X mcmc_sample burnin thinning a_sigma b_sigma
        A_tau A_lambda svdf gn gg).mcmc_lambda.getD i [])
      simp only [fast_horseshoe_lm]
      rw [getD_map_lt _ _ i hlen [] (fast_horseshoe_lm_init
          (fast_horseshoe_lm_data y X a_sigma b_sigma A_tau A_lambda svdf).p
          a_sigma b_sigma),
        runChain_getD _ _ _ _ _ i hi]
      exact hinv.2.2.2.1
  · intro y X mcmc_sample burnin thinning a_sigma b_sigma A_tau A_lambda svdf
      gn gg hgg hA ha hb hp i hi
    have hA2 : (0 : ℝ) < (fast_horseshoe_lm_data y X a_sigma b_sigma A_tau
        A_lambda svdf).A2_lambda := mul_self_pos.mpr hA
    have hstep : ∀ s, posStateHs s → posStateHs
        (hdChainStep (fast_horseshoe_lm_data y X a_sigma b_sigma A_tau A_lambda svdf)
          gn gg s) := by
      intro s hs
      by_cases hc : (fast_horseshoe_lm_data y X a_sigma b_sigma A_tau A_lambda svdf).p <
          (fast_horseshoe_lm_data y X a_sigma b_sigma A_tau A_lambda svdf).n
      · rw [hdChainStep, if_pos hc]
        exact hs_big_n_step_pos _ gn gg hgg hA2 s hs
      · rw [hdChainStep, if_neg hc]
        exact hs_update_step_pos _ gn gg hgg hA2 s hs
    have hinv := iterate_inv _ _ hstep (burnin + (i + 1) * thinning)
      (fast_horseshoe_hd_lm_init
        (fast_horseshoe_lm_data y X a_sigma b_sigma A_tau A_lambda svdf).p
        a_sigma b_sigma)
      (fast_horseshoe_hd_lm_init_pos _ a_sigma b_sigma hp ha hb)
    have hlen : i < (runChain
        (hdChainStep (fast_horseshoe_lm_data y X a_sigma b_sigma A_tau A_lambda svdf)
          gn gg) burnin mcmc_sample thinning
        (fast_horseshoe_hd_lm_init
          (fast_horseshoe_lm_data y X a_sigma b_sigma A_tau A_lambda svdf).p
          a_sigma b_sigma)).2.length := by
      rw [runChain_length]; exact hi
    refine ⟨?_, ?_, ?_⟩
    · show 0 < (fast_horseshoe_hd_lm y X mcmc_sample burnin thinning a_sigma b_sigma
        A_tau A_lambda svdf gn gg).mcmc_sigma2_eps.getD i 0
      simp only [fast_horseshoe_hd_lm]
      rw [getD_map_lt _ _ i hlen 0 (fast_horseshoe_hd_lm_init
          (fast_horseshoe_lm_data y X a_sigma b_sigma A_tau A_lambda svdf).p
          a_sigma b_sigma),
        runChain_getD _ _ _ _ _ i hi]
      exact hinv.1
    · show 0 < (fast_horseshoe_hd_lm y X mcmc_sample burnin thinning a_sigma b_sigma
        A_tau A_lambda svdf gn gg).mcmc_tau2.getD i 0
      simp only [fast_horseshoe_hd_lm]
      rw [getD_map_lt _ _ i hlen 0 (fast_horseshoe_hd_lm_init
          (fast_horseshoe_lm_data y X a_sigma b_sigma A_tau A_lambda svdf).p
          a_sigma b_sigma),
        runChain_getD _ _ _ _ _ i hi]
      exact hinv.2.1
    · show posVec ((fast_horseshoe_hd_lm y X mcmc_sample burnin thinning a_sigma
        b_sigma A_tau A_lambda svdf gn gg).mcmc_lambda.getD i [])
      simp only [fast_horseshoe_hd_lm]
      rw [getD_map_lt _ _ i hlen [] (fast_horseshoe_hd_lm_init
          (fast_horseshoe_lm_data y X a_sigma b_sigma A_tau A_lambda svdf).p
          a_sigma b_sigma),
        runChain_getD _ _ _ _ _ i hi]
      exact hinv.2.2.2.1
  · intro y X mcmc_sample burnin thinning a_sigma b_sigma A_tau A_lambda svdf
      gn gu gg pgam qgam hgg hgu hAt hA ha hb hp hQ i hi
    have hA2t : (0 : ℝ) < (fast_horseshoe_lm_data y X a_sigma b_sigma A_tau
        A_lambda svdf).A2 := mul_self_pos.mpr hAt
    have hA2 : (0 : ℝ) < (fast_horseshoe_lm_data y X a_sigma b_sigma A_tau
        A_lambda svdf).A2_lambda := mul_self_pos.mpr hA
    have hstep : ∀ s, posStateHs s →
        (posVec (slice_inv_lambda2
            (fast_horseshoe_lm_data y X a_sigma b_sigma A_tau A_lambda svdf) gn gu s) ∧
          0 < slice_inv_tau2
            (fast_horseshoe_lm_data y X a_sigma b_sigma A_tau A_lambda svdf) gn gu
            pgam qgam s) →
        posStateHs (ssChainStep
          (fast_horseshoe_lm_data y X a_sigma b_sigma A_tau A_lambda svdf)
          gn gu gg pgam qgam s) := by
      intro s hs hq
      by_cases hc : (fast_horseshoe_lm_data y X a_sigma b_sigma A_tau A_lambda svdf).p <
          (fast_horseshoe_lm_data y X a_sigma b_sigma A_tau A_lambda svdf).n
      · rw [ssChainStep, if_pos hc]
        exact hs_big_n_step_pos _ gn gg hgg hA2 s hs
      · rw [ssChainStep, if_neg hc]
        exact hs_slice_step_pos _ gn gu gg pgam qgam hgg hgu hA2t hA2 s hs hq.1 hq.2
    have hbound : burnin + (i + 1) * thinning ≤ burnin + mcmc_sample * thinning :=
      Nat.add_le_add_left (Nat.mul_le_mul (Nat.succ_le_of_lt hi) (le_refl thinning))
        burnin
    have hinv := iterate_inv_bounded _ _ _ hstep (burnin + (i + 1) * thinning)
      (fast_horseshoe_ss_lm_init
        (fast_horseshoe_lm_data y X a_sigma b_sigma A_tau A_lambda svdf).p
        a_sigma b_sigma)
      (fast_horseshoe_ss_lm_init_pos _ a_sigma b_sigma hp ha hb)
      (fun j hj => hQ j (lt_of_lt_of_le hj hbound))
    have hlen : i < (runChain
        (ssChainStep (fast_horseshoe_lm_data y X a_sigma b_sigma A_tau A_lambda svdf)
          gn gu gg pgam qgam) burnin mcmc_sample thinning
        (fast_horseshoe_ss_lm_init
          (fast_horseshoe_lm_data y X a_sigma b_sigma A_tau A_lambda svdf).p
          a_sigma b_sigma)).2.length := by
      rw [runChain_length]; exact hi
    refine ⟨?_, ?_, ?_⟩
    · show 0 < (fast_horseshoe_ss_lm y X mcmc_sample burnin thinning a_sigma b_sigma
        A_tau A_lambda svdf gn gu gg pgam qgam).mcmc_sigma2_eps.getD i 0
      simp only [fast_horseshoe_ss_lm]
      rw [getD_map_lt _ _ i hlen 0 (fast_horseshoe_ss_lm_init
          (fast_horseshoe_lm_data y X a_sigma b_sigma A_tau A_lambda svdf).p
          a_sigma b_sigma),
        runChain_getD _ _ _ _ _ i hi]
      exact hinv.1
    · show 0 < (fast_horseshoe_ss_lm y X mcmc_sample burnin thinning a_sigma b_sigma
        A_tau A_lambda svdf gn gu gg pgam qgam).mcmc_tau2.getD i 0
      simp only [fast_horseshoe_ss_lm]
      rw [getD_map_lt _ _ i hlen 0 (fast_horseshoe_ss_lm_init
          (fast_horseshoe_lm_data y X a_sigma b_sigma A_tau A_lambda svdf).p
          a_sigma b_sigma),
        runChain_getD _ _ _ _ _ i hi]
      exact hinv.2.1
    · show posVec ((fast_horseshoe_ss_lm y X mcmc_sample burnin thinning a_sigma
        b_sigma A_tau A_lambda svdf gn gu gg pgam qgam).mcmc_lambda.getD i [])
      simp only [fast_horseshoe_ss_lm]
      rw [getD_map_lt _ _ i hlen [] (fast_horseshoe_ss_lm_init
          (fast_horseshoe_lm_data y X a_sigma b_sigma A_tau A_lambda svdf).p
          a_sigma b_sigma),
        runChain_getD _ _ _ _ _ i hi]
      exact hinv.2.2.2.1
  · intro y X mcmc_sample burnin thinning A_tau pg gn gg hgg hpg hthin i hi
    have hstep : ∀ s, posStateLogitN
        (normalLogitChainStep (fast_normal_logit_data y X A_tau) pg gn gg s) := by
      intro s
      by_cases hc : (fast_normal_logit_data y X A_tau).p <
          (fast_normal_logit_data y X A_tau).n
      · rw [normalLogitChainStep, if_pos hc]
        exact logit_normal_big_n_step_pos _ pg gn gg hgg hpg s
      · rw [normalLogitChainStep, if_neg hc]
        exact logit_normal_big_p_step_pos _ pg gn gg hgg hpg s
    have hk : 1 ≤ burnin + (i + 1) * thinning :=
      le_trans (Nat.mul_pos (Nat.succ_pos i) hthin) (Nat.le_add_left _ _)
    have hinv := iterate_fresh _ _ hstep (burnin + (i + 1) * thinning) hk
      (fast_normal_logit_init (fast_normal_logit_data y X A_tau).p
        (fast_normal_logit_data y X A_tau).n A_tau pg)
    have hlen : i < (runChain
        (normalLogitChainStep (fast_normal_logit_data y X A_tau) pg gn gg)
        burnin mcmc_sample thinning
        (fast_normal_logit_init (fast_normal_logit_data y X A_tau).p
          (fast_normal_logit_data y X A_tau).n A_tau pg)).2.length := by
      rw [runChain_length]; exact hi
    refine ⟨?_, hinv⟩
    show 0 < (fast_normal_logit y X mcmc_sample burnin thinning A_tau pg
      gn gg).mcmc_tau2.getD i 0
    simp only [fast_normal_logit]
    rw [getD_map_lt _ _ i hlen 0 (fast_normal_logit_init
        (fast_normal_logit_data y X A_tau).p
        (fast_normal_logit_data y X A_tau).n A_tau pg),
      runChain_getD _ _ _ _ _ i hi]
    exact hinv.1
  · intro y X mcmc_sample burnin thinning A_tau A_lambda pg gn gg hgg hpg hAt hA
      hp i hi
    have hA2 : (0 : ℝ) < (fast_horseshoe_logit_data y X A_tau A_lambda).A2_lambda :=
      mul_self_pos.mpr hA
    have hstep : ∀ s, posStateL s → posStateL
        (logitHsChainStep (fast_horseshoe_logit_data y X A_tau A_lambda) pg gn gg s) := by
      intro s hs
      by_cases hc : (fast_horseshoe_logit_data y X A_tau A_lambda).p <
          (fast_horseshoe_logit_data y X A_tau A_lambda).n
      · rw [logitHsChainStep, if_pos hc]
        exact logit_hs_big_n_step_pos _ _ _ _ _ _ pg gn gg hgg hpg hA2 s hs
      · rw [logitHsChainStep, if_neg hc]
        exact logit_hs_big_p_step_pos _ pg gn gg hgg hpg hA2 s hs
    have hinv := iterate_inv _ _ hstep (burnin + (i + 1) * thinning)
      (fast_horseshoe_logit_init (fast_horseshoe_logit_data y X A_tau A_lambda).p
        (fast_horseshoe_logit_data y X A_tau A_lambda).n A_tau pg)
      (fast_horseshoe_logit_init_pos _ _ A_tau pg hp hAt hpg)
    have hlen : i < (runChain
        (logitHsChainStep (fast_horseshoe_logit_data y X A_tau A_lambda) pg gn gg)
        burnin mcmc_sample thinning
        (fast_horseshoe_logit_init (fast_horseshoe_logit_data y X A_tau A_lambda).p
          (fast_horseshoe_logit_data y X A_tau A_lambda).n A_tau pg)).2.length := by
      rw [runChain_length]; exact hi
    refine ⟨?_, ?_, hinv⟩
    · show 0 < (fast_horseshoe_logit y X mcmc_sample burnin thinning A_tau A_lambda
        pg gn gg).mcmc_tau2.getD i 0
      simp only [fast_horseshoe_logit]
      rw [getD_map_lt _ _ i hlen 0 (fast_horseshoe_logit_init
          (fast_horseshoe_logit_data y X A_tau A_lambda).p
          (fast_horseshoe_logit_data y X A_tau A_lambda).n A_tau pg),
        runChain_getD _ _ _ _ _ i hi]
      exact hinv.1
    · show posVec ((fast_horseshoe_logit y X mcmc_sample burnin thinning A_tau
        A_lambda pg gn gg).mcmc_lambda.getD i [])
      simp only [fast_horseshoe_logit]
      rw [getD_map_lt _ _ i hlen [] (fast_horseshoe_logit_init
          (fast_horseshoe_logit_data y X A_tau A_lambda).p
          (fast_horseshoe_logit_data y X A_tau A_lambda).n A_tau pg),
        runChain_getD _ _ _ _ _ i hi]
      exact hinv.2.2.1

/-- Witness for C4: the slice-sampler kernel preserves the invariant
at a concrete (empty-design) state with unit oracles, and a concrete
one-draw `fast_horseshoe_lm` run has a positive stored noise
variance. -/
theorem positivity_invariants_witness :
    posStateHs (hs_one_step_update_slice_sampler
      ⟨[], [], [], [], [], [], [], [], 1, 1, 0, 0, 0, 0⟩
      (fun _ => 1) (fun _ => 1) (fun _ => 1)
      (fun _ _ _ => 1) (fun _ _ _ => 1)
      ⟨[], [], [], [], 1, 1, 1, 0, 0, 0⟩) ∧
    0 < (fast_horseshoe_lm [1] [[1]] 1 0 1 0 0 1 1
      (fun _ => ([[1]], [1], [[1]]))
      (fun _ => 1) (fun _ => 1)).mcmc_sigma2_eps.getD 0 0 :=
  ⟨positivity_invariants.2.2.2.2.2.1
      ⟨[], [], [], [], [], [], [], [], 1, 1, 0, 0, 0, 0⟩
      (fun _ => 1) (fun _ => 1) (fun _ => 1)
      (fun _ _ _ => 1) (fun _ _ _ => 1)
      ⟨[], [], [], [], 1, 1, 1, 0, 0, 0⟩
      (fun _ => one_pos) (fun _ => one_pos) one_pos one_pos
      (by simp [posVec, slice_inv_lambda2, slice_betacoef, vDiv, vHad, vAdd,
        vSub, vScale, streamVec])
      one_pos
      (by simp [posStateHs, posVec]),
   (positivity_invariants.2.2.2.2.2.2.2.2.2.2.2.1 [1] [[1]] 1 0 1 0 0 1 1
      (fun _ => ([[1]], [1], [[1]])) (fun _ => 1) (fun _ => 1)
      (fun _ => one_pos) one_ne_zero (le_refl 0) (fun h => absurd rfl h)
      (by simp) 0 Nat.one_pos).1⟩

/-! ## Truncated standard normal generator (source lines 815–869)

`rand_left_trucnorm0(n, lower, ratio)` draws `n` values from a standard
normal truncated to `(lower, ∞)`.  The C++ `while` loops are embedded
with explicit fuel; a run that exhausts its fuel returns `none`
(non-termination), and the claim speaks about terminating runs.  The
`ratio` argument is named `rho` here. -/

/-- The tilt rate `α* = (lower + √(lower² + 4))/2` of the exponential
envelope (source line 840). -/
def alpha_star (lower : ℝ) : ℝ := 0.5 * (lower + Real.sqrt (lower * lower + 4))

/-- `arma::find(z > lower)` followed by `z.elem(idx)`: the subsequence
of entries exceeding `lower`. -/
def filterGT (lower : ℝ) : List ℝ → List ℝ
  | [] => []
  | z :: zs => if lower < z then z :: filterGT lower zs else filterGT lower zs

/-- The exponential-tilted acceptance step (source lines 842–845 and
855–858): a proposal `z` with matched uniform `u` is kept when
`log u < -(z - α*)²/2`. -/
def acceptTilted (as : ℝ) : List ℝ → List ℝ → List ℝ
  | [], _ => []
  | _ :: _, [] => []
  | z :: zs, u :: us =>
    if Real.log u < (z - as) * (-0.5 * (z - as)) then z :: acceptTilted as zs us
    else acceptTilted as zs us

/-- Writing a batch of `acc` accepted draws into the output vector `y`
starting at slot `m`: `y.subvec(m, m+cnt-1) = acc` when it fits, and
`y.subvec(m, n-1) = acc.head(n-m)` when it overflows. -/
def spliceFill (n : ℕ) (y acc : List ℝ) (m : ℕ) : List ℝ :=
  if m + acc.length ≤ n then y.take m ++ acc ++ y.drop (m + acc.length)
  else y.take m ++ acc.take (n - m)

/-- One batch of the plain-rejection regime (`lower ≤ 0`): draw
`⌈ρ(n-m)⌉` standard normals from `gn` and keep those above `lower`. -/
def plainBatch (n : ℕ) (lower rho : ℝ) (gn : ℕ → ℝ) (c m : ℕ) : List ℝ × ℕ :=
  let k := Nat.ceil (rho * ((n : ℝ) - (m : ℝ)))
  (filterGT lower (streamVec gn c k), c + k)

/-- One batch of the exponential-tilted regime (`lower > 0`): propose
`z = lower - log(u)/α*` from `⌈ρ(n-m)⌉` uniforms, then accept against
a second block of uniforms. -/
def tiltedBatch (n : ℕ) (lower rho : ℝ) (gu : ℕ → ℝ) (c m : ℕ) : List ℝ × ℕ :=
  let k := Nat.ceil (rho * ((n : ℝ) - (m : ℝ)))
  let z := (List.range k).map
    (fun j => lower - Real.log (gu (c + j)) / alpha_star lower)
  let u := streamVec gu (c + k) k
  (acceptTilted (alpha_star lower) z u, c + 2 * k)

/-- The `while (m < n)` accumulation loop shared by both regimes of
`rand_left_trucnorm0`, with explicit fuel. -/
def fillLoop (n : ℕ) (batch : ℕ → ℕ → List ℝ × ℕ) :
    ℕ → ℕ → ℕ → List ℝ → Option (List ℝ)
  | 0, _, m, y => if n ≤ m then some y else none
  | fuel + 1, c, m, y =>
    if n ≤ m then some y
    else if (batch c m).1.length = 0 then fillLoop n batch fuel (batch c m).2 m y
    else fillLoop n batch fuel (batch c m).2 (m + (batch c m).1.length)
      (spliceFill n y (batch c m).1 m)

/-- Embedding of `rand_left_trucnorm0` (source lines 815–869): output
vector zero-initialized, one unconditional first batch, then the
`while` loop until `n` draws are accepted. -/
def rand_left_trucnorm0 (n : ℕ) (lower rho : ℝ) (gn gu : ℕ → ℝ)
    (fuel : ℕ) : Option (List ℝ) :=
  if lower ≤ 0 then
    if (plainBatch n lower rho gn 0 0).1.length = 0 then
      fillLoop n (plainBatch n lower rho gn) fuel (plainBatch n lower rho gn 0 0).2 0
        (List.replicate n 0)
    else
      fillLoop n (plainBatch n lower rho gn) fuel (plainBatch n lower rho gn 0 0).2
        (plainBatch n lower rho gn 0 0).1.length
        (spliceFill n (List.replicate n 0) (plainBatch n lower rho gn 0 0).1 0)
  else
    if (tiltedBatch n lower rho gu 0 0).1.length = 0 then
      fillLoop n (tiltedBatch n lower rho gu) fuel (tiltedBatch n lower rho gu 0 0).2 0
        (List.replicate n 0)
    else
      fillLoop n (tiltedBatch n lower rho gu) fuel (tiltedBatch n lower rho gu 0 0).2
        (tiltedBatch n lower rho gu 0 0).1.length
        (spliceFill n (List.replicate n 0) (tiltedBatch n lower rho gu 0 0).1 0)

lemma filterGT_mem {lower : ℝ} : ∀ {l : List ℝ} {v : ℝ}, v ∈ filterGT lower l → lower < v := by
  intro l
  induction l with
  | nil => intro v h; simp [filterGT] at h
  | cons z zs ih =>
    intro v h
    rw [filterGT] at h
    by_cases hz : lower < z
    · rw [if_pos hz] at h
      rcases List.mem_cons.1 h with h1 | h2
      · exact h1 ▸ hz
      · exact ih h2
    · rw [if_neg hz] at h
      exact ih h

lemma acceptTilted_subset {as : ℝ} :
    ∀ {zs us : List ℝ} {v : ℝ}, v ∈ acceptTilted as zs us → v ∈ zs := by
  intro zs
  induction zs with
  | nil => intro us v h; simp [acceptTilted] at h
  | cons z zt ih =>
    intro us v h
    cases us with
    | nil => simp [acceptTilted] at h
    | cons u ut =>
      rw [acceptTilted] at h
      by_cases hc : Real.log u < (z - as) * (-0.5 * (z - as))
      · rw [if_pos hc] at h
        rcases List.mem_cons.1 h with h1 | h2
        · exact h1 ▸ List.mem_cons_self z zt
        · exact List.mem_cons_of_mem z (ih h2)
      · rw [if_neg hc] at h
        exact List.mem_cons_of_mem z (ih h)

lemma spliceFill_length {n : ℕ} {y acc : List ℝ} {m : ℕ}
    (hy : y.length = n) (hm : m ≤ n) : (spliceFill n y acc m).length = n := by
  rw [spliceFill]
  split
  · simp only [List.length_append, List.length_take, List.length_drop, hy]
    omega
  · rename_i hlt
    simp only [List.length_append, List.length_take, hy]
    omega

lemma spliceFill_take {n : ℕ} {y acc : List ℝ} {m : ℕ} {P : ℝ → Prop}
    (hy : y.length = n) (hm : m ≤ n)
    (h1 : ∀ v ∈ y.take m, P v) (h2 : ∀ v ∈ acc, P v) :
    ∀ v ∈ (spliceFill n y acc m).take (min (m + acc.length) n), P v := by
  intro v hv
  rw [spliceFill] at hv
  split at hv
  · rename_i hle
    rw [min_eq_left hle] at hv
    have hlen : (y.take m ++ acc).length = m + acc.length := by
      simp [List.length_take, hy]; omega
    rw [List.take_append_eq_append_take] at hv
    rcases List.mem_append.1 hv with hv1 | hv2
    · have := List.take_subset (m + acc.length) (y.take m ++ acc) hv1
      rcases List.mem_append.1 this with ha | hb
      · exact h1 v ha
      · exact h2 v hb
    · exfalso
      have hz : m + acc.length - (y.take m ++ acc).length = 0 := by
        rw [hlen]; omega
      rw [hz] at hv2
      simp at hv2
  · have hv2 := List.take_subset _ _ hv
    rcases List.mem_append.1 hv2 with ha | hb
    · exact h1 v ha
    · exact h2 v (List.take_subset (n - m) acc hb)

lemma fillLoop_spec (n : ℕ) (batch : ℕ → ℕ → List ℝ × ℕ) (P : ℝ → Prop)
    (hbatch : ∀ c m, ∀ v ∈ (batch c m).1, P v) :
    ∀ (fuel c m : ℕ) (y ys : List ℝ),
      fillLoop n batch fuel c m y = some ys →
      y.length = n → (∀ v ∈ y.take (min m n), P v) →
      ys.length = n ∧ ∀ v ∈ ys, P v := by
  intro fuel
  induction fuel with
  | zero =>
    intro c m y ys h hy hP
    rw [fillLoop] at h
    split at h
    · rename_i hnm
      cases h
      refine ⟨hy, fun v hv => ?_⟩
      have : min m n = n := min_eq_right hnm
      rw [this, ← hy, List.take_length] at hP
      exact hP v hv
    · cases h
  | succ fuel ih =>
    intro c m y ys h hy hP
    rw [fillLoop] at h
    split at h
    · rename_i hnm
      cases h
      refine ⟨hy, fun v hv => ?_⟩
      have : min m n = n := min_eq_right hnm
      rw [this, ← hy, List.take_length] at hP
      exact hP v hv
    · rename_i hnm
      have hmn : m < n := Nat.lt_of_not_le hnm
      split at h
      · exact ih _ _ _ _ h hy hP
      · refine ih _ _ _ _ h (spliceFill_length hy hmn.le) ?_
        have hm_eq : min m n = m := min_eq_left hmn.le
        rw [hm_eq] at hP
        exact spliceFill_take hy hmn.le hP (hbatch c m)

/-- C8: whenever `rand_left_trucnorm0` terminates (under any fuel), in
either regime, it returns exactly `n` values, every one strictly
greater than `lower`; no zero-initialized slot survives unfilled.  The
uniform oracle is assumed to take values in the open interval `(0,1)`,
as a uniform variate does almost surely. -/
theorem rand_left_trucnorm0_spec (n : ℕ) (lower rho : ℝ) (gn gu : ℕ → ℝ)
    (fuel : ℕ) (hn : 1 ≤ n) (hrho : 0 < rho)
    (hu : ∀ k, 0 < gu k ∧ gu k < 1) (ys : List ℝ)
    (h : rand_left_trucnorm0 n lower rho gn gu fuel = some ys) :
    ys.length = n ∧ ∀ v ∈ ys, lower < v := by
  rw [rand_left_trucnorm0] at h
  split at h
  · -- plain rejection regime, lower ≤ 0
    have hbatch : ∀ c m, ∀ v ∈ (plainBatch n lower rho gn c m).1, lower < v := by
      intro c m v hv
      exact filterGT_mem hv
    split at h
    · exact fillLoop_spec n _ _ hbatch _ _ _ _ _ h (by simp) (by simp)
    · refine fillLoop_spec n _ _ hbatch _ _ _ _ _ h
        (spliceFill_length (by simp) (Nat.zero_le n)) ?_
      have h0 : ∀ v ∈ (List.replicate n (0 : ℝ)).take 0, lower < v := by simp
      have := spliceFill_take (P := fun v => lower < v)
        (by simp : (List.replicate n (0 : ℝ)).length = n) (Nat.zero_le n) h0
        (hbatch 0 0)
      simpa using this
  · -- exponential tilted regime, lower > 0
    rename_i hlow
    have hlow' : 0 < lower := lt_of_not_le hlow
    have has : 0 < alpha_star lower := by
      rw [alpha_star]
      have h1 : 0 < lower + Real.sqrt (lower * lower + 4) :=
        add_pos_of_pos_of_nonneg hlow' (Real.sqrt_nonneg _)
      nlinarith
    have hbatch : ∀ c m, ∀ v ∈ (tiltedBatch n lower rho gu c m).1, lower < v := by
      intro c m v hv
      have hz := acceptTilted_subset hv
      simp only [tiltedBatch, List.mem_map, List.mem_range] at hz
      obtain ⟨j, _, rfl⟩ := hz
      have hlog : Real.log (gu (c + j)) < 0 :=
        Real.log_neg (hu (c + j)).1 (hu (c + j)).2
      have : Real.log (gu (c + j)) / alpha_star lower < 0 :=
        div_neg_of_neg_of_pos hlog has
      linarith
    split at h
    · exact fillLoop_spec n _ _ hbatch _ _ _ _ _ h (by simp) (by simp)
    · refine fillLoop_spec n _ _ hbatch _ _ _ _ _ h
        (spliceFill_length (by simp) (Nat.zero_le n)) ?_
      have h0 : ∀ v ∈ (List.replicate n (0 : ℝ)).take 0, lower < v := by simp
      have := spliceFill_take (P := fun v => lower < v)
        (by simp : (List.replicate n (0 : ℝ)).length = n) (Nat.zero_le n) h0
        (hbatch 0 0)
      simpa using this

/-- Witness for C8: a concrete terminating run with `n = 1`,
`lower = 0`, `ratio = 1` whose single batch already accepts one
draw. -/
theorem rand_left_trucnorm0_spec_witness :
    [(1 : ℝ)].length = 1 ∧ ∀ v ∈ [(1 : ℝ)], (0 : ℝ) < v :=
  rand_left_trucnorm0_spec 1 0 1 (fun _ => 1) (fun _ => 1 / 2) 0 (le_refl 1)
    one_pos (fun _ => ⟨one_half_pos, one_half_lt_one⟩) [1]
    (by simp [rand_left_trucnorm0, plainBatch, streamVec, filterGT, spliceFill,
      fillLoop])

/-! ## Logistic prediction (source lines 1699–1725) -/

/-- The posterior mean predicted probability of `predict_fast_logit`:
row `i` of `X_test` times each stored coefficient draw, mapped through
the logistic function, averaged over draws (`mean(1/(1+exp(-X β)))`).
`mb` is the `mcmc.betacoef` draw list, one column per retained
iteration. -/
def predict_fast_logit_mean (mb Xt : List (List ℝ)) : List ℝ :=
  Xt.map (fun row =>
    meanR (mb.map (fun col => 1 / (1 + Real.exp (0 - dotL row col)))))

/-- The predicted class of `predict_fast_logit` (source lines
1712–1714): `pred_class` is zero-initialized and set to one exactly on
`find(pred_mean > cutoff)`. -/
def predict_fast_logit_class (mb Xt : List (List ℝ)) (cutoff : ℝ) : List ℕ :=
  (predict_fast_logit_mean mb Xt).map (fun q => if cutoff < q then 1 else 0)

/-- C10: the predicted class for row `i` is `1` exactly when the
posterior mean predicted probability strictly exceeds `cutoff`; a row
whose mean probability equals `cutoff` is assigned class `0`. -/
theorem predict_fast_logit_class_spec (mb Xt : List (List ℝ)) (cutoff : ℝ)
    (i : ℕ) (hi : i < Xt.length) :
    ((predict_fast_logit_class mb Xt cutoff).getD i 0 = 1 ↔
      cutoff < (predict_fast_logit_mean mb Xt).getD i 0) ∧
    ((predict_fast_logit_mean mb Xt).getD i 0 = cutoff →
      (predict_fast_logit_class mb Xt cutoff).getD i 0 = 0) := by
  have hlen : i < (predict_fast_logit_mean mb Xt).length := by
    simpa [predict_fast_logit_mean] using hi
  rw [predict_fast_logit_class, getD_map_lt _ _ i hlen 0 0]
  by_cases hc : cutoff < (predict_fast_logit_mean mb Xt).getD i 0
  · rw [if_pos hc]
    exact ⟨⟨fun _ => hc, fun _ => rfl⟩, fun he => absurd (he ▸ hc) (lt_irrefl _)⟩
  · rw [if_neg hc]
    exact ⟨⟨fun h0 => absurd h0 Nat.zero_ne_one, fun h => absurd h hc⟩,
      fun _ => rfl⟩

/-- Witness for C10 on a one-row, one-draw problem with zero
coefficients (mean probability `1/2`). -/
theorem predict_fast_logit_class_spec_witness :
    ((predict_fast_logit_class [[0]] [[1]] (1 / 2)).getD 0 0 = 1 ↔
      (1 : ℝ) / 2 < (predict_fast_logit_mean [[0]] [[1]]).getD 0 0) ∧
    ((predict_fast_logit_mean [[0]] [[1]]).getD 0 0 = 1 / 2 →
      (predict_fast_logit_class [[0]] [[1]] (1 / 2)).getD 0 0 = 0) :=
  predict_fast_logit_class_spec [[0]] [[1]] (1 / 2) 0 (by simp)

end

end FastBayesReg
